import Mathlib

/-!
# picfit `config` package: defaulting, merge and decode of the configuration

Shallow embedding of `config/config.go` (`DefaultConfig`, `load`, `Load`,
`LoadFromContent`).

## What lies outside `config.go`

* The package constants (`DefaultPort`, `DefaultFormat`, ...), `constants.Version`
  and the collaborator types `engine.Config`, `kvstore.Config`,
  `storage.Config`, `logger.Config` belong to the repository but not to the
  source at hand: the constants, the weak conversions of the decoder and the
  decoding of the collaborator sub-documents are fields of `Deps`.
* The file system, the process environment, the parsers of the supported
  document formats and the two places where the iteration order of a Go map
  shows (the enumeration of the key paths, the search of a key up to case)
  are the fields of `World`.
* `load` drives the process-wide instance of the configuration library
  `viper` and decodes through its `Unmarshal` (library `mapstructure`, weakly
  typed input).  That instance is made explicit as a value of type `Viper`
  which `load` receives and returns.  `Viper.*` and the `decode*` functions
  follow the behaviour of the library (release line 1.x) for the calls
  `load` makes:
  - a key is cut into a path at every `.`; a path is looked up in the config
    layer with the longest joined prefix first, then in the defaults;
  - a key is resolved by precedence environment, config, defaults; the
    environment is consulted only once automatic environment lookup has been
    switched on (or a key has been bound), which `SetEnvPrefix` does not do;
    a nil value counts as absent;
  - a default is registered per key, and a struct pointer registered as a
    default is a single leaf, not a sub-tree;
  - `SetConfigFile` and `SetConfigType` do nothing when given the empty
    string; the config type set explicitly, once set, takes precedence over
    the extension of the config file for every later read;
  - the settings handed to the decoder are rebuilt from the key paths of the
    config and default layers, one path after the other in the order of
    enumeration, each path creating or overwriting the maps it runs through;
  - the decoder matches a key with the `mapstructure` tag of a field, or with
    the field name when there is no tag, case-insensitively, ignores keys
    that match no field, and leaves a field at its zero value when its key is
    missing or its data is nil;
  - a number of a JSON document arrives as a 64-bit float (`Any.float`), and
    a Go `int` is 64 bits wide.

## Modelling boundaries

* A map is an association list.  The maps the library keeps (config layer,
  defaults, settings) have lower-case keys, as the parsers deliver them; the
  settings are kept in one canonical order of their keys, which only the
  collaborator decoders could observe.
* The enumeration of the key paths lists every leaf path of both layers once;
  the library's pruning of paths shadowed by a shorter path is not modelled.
-/

namespace Picfit

/-! ## Data model (`config.go`, lines 16-60) -/

/-- Shard is a struct to allow shard location when files are uploaded. -/
structure Shard where
  Depth : Int
  Width : Int
  RestOnly : Bool

/-- AllowedSize is a struct used in the allowed_sizes option. -/
structure AllowedSize where
  Height : Int
  Width : Int

/-- Options is a struct to add options to the application. -/
structure Options where
  EnableUpload : Bool
  EnableDelete : Bool
  EnableStats : Bool
  AllowedSizes : List AllowedSize
  DefaultUserAgent : String
  MimetypeDetector : String

/-- Sentry is a struct to configure sentry using a dsn.  The Go map of tags is
an association list; the nil map is the empty list. -/
structure Sentry where
  DSN : String
  Tags : List (String × String)

/-- Modelled from the spec: `engine.Config` is declared in the `engine` package,
which is not part of the source at hand.  Only the three fields that
`DefaultConfig` assigns are represented. -/
structure EngineConfig where
  DefaultFormat : String
  Quality : Int
  Format : String

/-- Modelled from the spec: `kvstore.Config` is declared in the `kvstore`
package, which is not part of the source at hand.  Only the field that
`DefaultConfig` assigns (`Type`) is represented. -/
structure KVStoreConfig where
  Type_ : String

/-- Dynamic values (`interface{}`) handled by the merge layer: the leaves and
containers of a parsed document, and the Go values `load` registers as
defaults (an `int` and three struct pointers, `none` being the nil pointer).
`int n` is a Go integer of 64 bits (signed or unsigned); `float num den` is
the `float64` of value `num / den`, the form under which a JSON number
reaches the decoder. -/
inductive Any where
  | nil
  | bool (b : Bool)
  | int (n : Int)
  | float (num : Int) (den : Nat)
  | str (s : String)
  | slice (xs : List Any)
  | map (kvs : List (String × Any))
  | optionsPtr (p : Option Options)
  | shardPtr (p : Option Shard)
  | kvstorePtr (p : Option KVStoreConfig)

/-- Modelled from the spec: `storage.Config` is declared in the `storage`
package, which is not part of the source at hand; the spec calls it an opaque
structured payload.  It is kept as the key-value payload its decoder
produced. -/
structure StorageConfig where
  payload : List (String × Any)

/-- Modelled from the spec: `logger.Config` is declared in the `logger`
package, which is not part of the source at hand; the spec calls it an opaque
structured payload.  It is kept as the key-value payload its decoder produced;
the zero value has the empty payload. -/
structure LoggerConfig where
  payload : List (String × Any)

/-- Config is a struct to load configuration flags.  Pointer fields are
`Option`s (`none` is nil); nil slices are empty lists. -/
structure Config where
  Debug : Bool
  Engine : Option EngineConfig
  Sentry : Option Sentry
  SecretKey : String
  Shard : Option Shard
  Port : Int
  Options : Option Options
  AllowedOrigins : List String
  AllowedMethods : List String
  AllowedHeaders : List String
  Storage : Option StorageConfig
  KVStore : Option KVStoreConfig
  Logger : LoggerConfig

/-- The errors a load can end with. -/
inductive LoadError where
  | configFileNotFound
  | unsupportedConfig (configType : String)
  | readError (path : String)
  | parseError
  | decodeError

/-- A parsed document as the merge layer stores it after reading: the keys of
the maps outside lists are in lower case. -/
abbrev Tree := List (String × Any)

/-- What `config.go` uses but does not define. -/
structure Deps where
  /-- Package constant `DefaultFormat`. -/
  DefaultFormat : String
  /-- Package constant `DefaultQuality`. -/
  DefaultQuality : Int
  /-- Package constant `DefaultPort`. -/
  DefaultPort : Int
  /-- Package constant `DefaultUserAgent`. -/
  DefaultUserAgent : String
  /-- Package constant `DefaultMimetypeDetector`. -/
  DefaultMimetypeDetector : String
  /-- Package constant `DefaultShardWidth`. -/
  DefaultShardWidth : Int
  /-- Package constant `DefaultShardDepth`. -/
  DefaultShardDepth : Int
  /-- Package constant `DefaultShardRestOnly`. -/
  DefaultShardRestOnly : Bool
  /-- The constant `constants.Version`. -/
  Version : String
  /-- Membership in the parser library's list of supported config types. -/
  supported : String → Bool
  /-- Result of converting to `int` a `float64` outside the range of `int`
  (implementation-specific in Go); the argument is the truncated value. -/
  floatOverflow : Int → Int
  /-- Weak conversion to `bool` of a value that is not a `bool`. -/
  weakBool : Any → Option Bool
  /-- Weak conversion to `int` of a value that is not a number. -/
  weakInt : Any → Option Int
  /-- Weak conversion to `string` of a value that is not a string. -/
  weakString : Any → Option String
  /-- Weak conversion to a slice of a value that is not a slice. -/
  weakSlice : Any → Option (List Any)
  /-- Weak conversion to a map of a value that is not a map. -/
  weakMap : Any → Option (List (String × Any))
  /-- Decoding of the `engine` sub-document by its owner. -/
  decodeEngine : Any → Option EngineConfig
  /-- Decoding of the `storage` sub-document by its owner. -/
  decodeStorage : Any → Option StorageConfig
  /-- Decoding of a `kvstore` sub-document (not a `*kvstore.Config`). -/
  decodeKVStore : Any → Option KVStoreConfig
  /-- Decoding of the `logger` sub-document by its owner. -/
  decodeLogger : Any → Option LoggerConfig

/-- The surroundings of one call: the file system, the environment, and what
the Go runtime and the parsers decide during the call. -/
structure World where
  /-- Contents of the file at a path, `none` when it cannot be read. -/
  readFile : String → Option String
  /-- The function `os.Getenv`: the empty string for an unset variable. -/
  getenv : String → String
  /-- The reader of the merge layer for a config type and a text: the text
  parsed and the keys of its maps lower-cased; `none` is a parse error. -/
  unmarshalReader : String → String → Option Tree
  /-- The order in which the set of key paths is enumerated when the settings
  are rebuilt (iteration order of a Go map): a permutation of its argument. -/
  keyOrder : List (List String) → List (List String)
  /-- The order in which the decoder ranges over the entries of a map when it
  looks for a key up to case (iteration order of a Go map): a permutation of
  its argument. -/
  foldOrder : List (String × Any) → List (String × Any)

/-! ## `DefaultConfig` (`config.go`, lines 62-86) -/

/-- DefaultConfig returns a default config instance.  `fmt.Sprint` puts no
space between operands that are strings. -/
def DefaultConfig (d : Deps) : Config :=
  { Debug := false
    Engine := some
      { DefaultFormat := d.DefaultFormat
        Quality := d.DefaultQuality
        Format := "" }
    Sentry := none
    SecretKey := ""
    Shard := some
      { Width := d.DefaultShardWidth
        Depth := d.DefaultShardDepth
        RestOnly := d.DefaultShardRestOnly }
    Port := d.DefaultPort
    Options := some
      { EnableUpload := false
        EnableDelete := false
        EnableStats := false
        AllowedSizes := []
        DefaultUserAgent := d.DefaultUserAgent ++ "/" ++ d.Version
        MimetypeDetector := d.DefaultMimetypeDetector }
    AllowedOrigins := []
    AllowedMethods := []
    AllowedHeaders := []
    Storage := none
    KVStore := some { Type_ := "dummy" }
    Logger := { payload := [] } }

/-! ## The merge layer (`viper`) -/

/-- Lookup of a key in an association list, first entry first. -/
def lookup (k : String) : List (String × Any) → Option Any
  | [] => none
  | (k2, v) :: rest => if k2 = k then some v else lookup k rest

/-- A looked-up value that is present and not nil. -/
def nonNil : Option Any → Option Any
  | some Any.nil => none
  | o => o

/-- The state of the process-wide merge instance that `load` touches. -/
structure Viper where
  configFile : String
  configType : String
  envPrefix : String
  automaticEnvApplied : Bool
  config : Tree
  defaults : List (String × Any)

namespace Viper

/-- The instance as the library creates it at process start. -/
def New : Viper :=
  { configFile := ""
    configType := ""
    envPrefix := ""
    automaticEnvApplied := false
    config := []
    defaults := [] }

/-- Registration of a default under a key without delimiter: the entry of the
defaults map is replaced. -/
def SetDefault (v : Viper) (key : String) (value : Any) : Viper :=
  { v with defaults := (key, value) :: v.defaults.filter (fun e => e.1 ≠ key) }

/-- Registration of the environment namespace; it enables no lookup. -/
def SetEnvPrefix (v : Viper) (p : String) : Viper :=
  { v with envPrefix := p }

/-- Explicit choice of the config file; the empty path is ignored. -/
def SetConfigFile (v : Viper) (path : String) : Viper :=
  if path ≠ "" then { v with configFile := path } else v

/-- Explicit choice of the config type; the empty type is ignored. -/
def SetConfigType (v : Viper) (t : String) : Viper :=
  if t ≠ "" then { v with configType := t } else v

end Viper

/-- Scan of a path from its end for the extension (`filepath.Ext` without the
dot): `acc` holds the characters passed so far. -/
def extAux : List Char → List Char → Option (List Char)
  | [], _ => none
  | c :: rest, acc =>
    if c = '/' then none
    else if c = '.' then some acc
    else extAux rest (c :: acc)

/-- The extension of the final element of a path, without the dot. -/
def fileExt (path : String) : String :=
  match extAux path.data.reverse [] with
  | some acc => String.mk acc
  | none => ""

/-- Upper-casing of a string (`strings.ToUpper` on ASCII). -/
def upper (s : String) : String :=
  String.mk (s.data.map Char.toUpper)

/-- Splitting at the key delimiter: `acc` holds the current segment,
reversed. -/
def splitAux : List Char → List Char → List String
  | [], acc => [String.mk acc.reverse]
  | c :: cs, acc =>
    if c = '.' then String.mk acc.reverse :: splitAux cs [] else splitAux cs (c :: acc)

/-- The segments of a key (`strings.Split(key, ".")`). -/
def splitKey (k : String) : List String :=
  splitAux k.data []

/-- The key of a path (`strings.Join(path, ".")`). -/
def joinKey : List String → String
  | [] => ""
  | [s] => s
  | s :: t :: rest => s ++ "." ++ joinKey (t :: rest)

mutual
/-- The key paths below a value reached at the path `pfx`: a map is descended,
everything else is a leaf.  A key path stands for the key that joins its
segments with the delimiter: the library joins the keys met on the way and
splits the result again. -/
def flattenVal (pfx : List String) : Any → List (List String)
  | Any.map kvs => flattenMap pfx kvs
  | _ => [pfx]
/-- The key paths of the entries of a map reached at the path `pfx`. -/
def flattenMap (pfx : List String) : List (String × Any) → List (List String)
  | [] => []
  | (k, v) :: rest => flattenVal (pfx ++ splitKey k) v ++ flattenMap pfx rest
end

/-- Plain descent along a path (`searchMap`); `none` is nil. -/
def searchMap : List (String × Any) → List String → Option Any
  | src, [] => some (Any.map src)
  | src, [k] => nonNil (lookup k src)
  | src, k :: t :: rest =>
    match lookup k src with
    | some (Any.map m) => searchMap m (t :: rest)
    | _ => none

/-- One round of `searchMapWithPathPrefixes`: the prefixes of `path` of length
`i` down to 1 are joined and looked up as keys of `src`; `deeper` searches the
rest of the path in a map found under a proper prefix. -/
def searchAux (deeper : List (String × Any) → List String → Option Any)
    (src : List (String × Any)) (path : List String) : Nat → Option Any
  | 0 => none
  | i + 1 =>
    match lookup (joinKey (path.take (i + 1))) src with
    | some next =>
      if i + 1 = path.length then nonNil (some next)
      else
        match next with
        | Any.map m =>
          match deeper m (path.drop (i + 1)) with
          | some val => some val
          | none => searchAux deeper src path i
        | _ => searchAux deeper src path i
    | none => searchAux deeper src path i

/-- Descent along a path in which a key may itself hold the delimiter
(`searchMapWithPathPrefixes`), longest prefix first; `none` is nil. -/
def searchWithPrefixes : Nat → List (String × Any) → List String → Option Any
  | 0, _, _ => none
  | fuel + 1, src, path =>
    if path = [] then some (Any.map src)
    else searchAux (searchWithPrefixes fuel) src path path.length

/-- The proper prefixes of a path, shortest first. -/
def properPrefixes (path : List String) : List (List String) :=
  (List.range (path.length - 1)).map fun i => path.take (i + 1)

/-- Whether some proper prefix of a path holds a value that is not a map
(`isPathShadowedInDeepMap`): the prefixes are given shortest first. -/
def shadowedIn (src : List (String × Any)) : List (List String) → Bool
  | [] => false
  | p :: ps =>
    match searchMap src p with
    | none => false
    | some (Any.map _) => shadowedIn src ps
    | some _ => true

namespace Viper

/-- The config type in force: the explicit one when set, else the extension
of the config file. -/
def getConfigType (v : Viper) : String :=
  if v.configType ≠ "" then v.configType else fileExt v.configFile

/-- ReadInConfig: read and parse the config file; the config layer is
replaced on success only. -/
def ReadInConfig (d : Deps) (w : World) (v : Viper) : Option LoadError × Viper :=
  if v.configFile = "" then (some LoadError.configFileNotFound, v)
  else if d.supported v.getConfigType = false then
    (some (LoadError.unsupportedConfig v.getConfigType), v)
  else
    match w.readFile v.configFile with
    | none => (some (LoadError.readError v.configFile), v)
    | some bytes =>
      match w.unmarshalReader v.getConfigType bytes with
      | none => (some LoadError.parseError, v)
      | some tree => (none, { v with config := tree })

/-- ReadConfig: parse a buffer under the config type in force; the config
layer is emptied first. -/
def ReadConfig (w : World) (v : Viper) (content : String) : Option LoadError × Viper :=
  match w.unmarshalReader v.getConfigType content with
  | none => (some LoadError.parseError, { v with config := [] })
  | some tree => (none, { v with config := tree })

/-- The environment variable consulted for a key. -/
def envKey (v : Viper) (key : String) : String :=
  if v.envPrefix ≠ "" then upper (v.envPrefix ++ "_" ++ key) else upper key

/-- AllKeys: the key paths of the config layer and of the defaults, each
once. -/
def allKeys (v : Viper) : List (List String) :=
  (flattenMap [] v.config ++ flattenMap [] v.defaults).dedup

/-- Value of a key path by precedence (`find`): the environment, only once
automatic environment lookup has been switched on; then the config layer,
unless a proper prefix of the path holds a plain value there; then the
defaults; `none` is nil. -/
def find (w : World) (v : Viper) (path : List String) : Option Any :=
  if v.automaticEnvApplied = true ∧ w.getenv (v.envKey (joinKey path)) ≠ "" then
    some (Any.str (w.getenv (v.envKey (joinKey path))))
  else if v.automaticEnvApplied = true ∧
      (properPrefixes path).any (fun p => w.getenv (v.envKey (joinKey p)) ≠ "") = true then
    none
  else
    match searchWithPrefixes (path.length + 1) v.config path with
    | some x => some x
    | none =>
      if shadowedIn v.config (properPrefixes path) = true then none
      else searchMap v.defaults path

end Viper

/-- Order of keys by character codes, used to give the entries of a rebuilt
map a place that does not depend on the order of insertion (a Go map has no
order). -/
def ltChars : List Char → List Char → Bool
  | _, [] => false
  | [], _ :: _ => true
  | a :: as, b :: bs =>
    if a.toNat < b.toNat then true
    else if b.toNat < a.toNat then false
    else ltChars as bs

/-- Order of keys by character codes. -/
def keyLt (a b : String) : Bool :=
  ltChars a.data b.data

/-- Whether a key has an entry. -/
def hasKey (k : String) : List (String × Any) → Bool
  | [] => false
  | (k2, _) :: rest => if k2 = k then true else hasKey k rest

/-- Replacement of the value of the first entry of a key. -/
def replaceKey (k : String) (v : Any) : List (String × Any) → List (String × Any)
  | [] => []
  | (k2, v2) :: rest => if k2 = k then (k, v) :: rest else (k2, v2) :: replaceKey k v rest

/-- A new entry, put before the first entry with a greater key. -/
def insertKey (k : String) (v : Any) : List (String × Any) → List (String × Any)
  | [] => [(k, v)]
  | (k2, v2) :: rest =>
    if keyLt k k2 = true then (k, v) :: (k2, v2) :: rest else (k2, v2) :: insertKey k v rest

/-- Assignment `m[k] = v`. -/
def upsert (k : String) (v : Any) (m : List (String × Any)) : List (String × Any) :=
  if hasKey k m = true then replaceKey k v m else insertKey k v m

/-- The map held under a key, a new one when there is none or the value is not
a map (`deepSearch`). -/
def asMap : Option Any → List (String × Any)
  | some (Any.map kvs) => kvs
  | _ => []

/-- Assignment of a value at a key path: the maps on the way are created, or
put in place of a value that is not a map. -/
def deepInsert : List String → Any → List (String × Any) → List (String × Any)
  | [], _, m => m
  | [k], v, m => upsert k v m
  | k :: t :: rest, v, m => upsert k (Any.map (deepInsert (t :: rest) v (asMap (lookup k m)))) m

namespace Viper

/-- One step of AllSettings: the value of the key path, unless nil, is
assigned at the path. -/
def settle (w : World) (v : Viper) (m : List (String × Any)) (path : List String) :
    List (String × Any) :=
  match v.find w path with
  | none => m
  | some val => deepInsert path val m

/-- AllSettings: the settings rebuilt from the key paths, in the order of
their enumeration. -/
def AllSettings (w : World) (v : Viper) : List (String × Any) :=
  (w.keyOrder v.allKeys).foldl (v.settle w) []

end Viper

/-! ## The decoder (`viper.Unmarshal`, weakly typed input) -/

/-- Decoding into a `bool`. -/
def decodeBool (d : Deps) : Any → Option Bool
  | Any.bool b => some b
  | v => d.weakBool v

/-- Conversion of a Go integer of 64 bits to `int`: the value modulo `2^64`
in the signed range. -/
def wrapInt64 (n : Int) : Int :=
  (n + 2 ^ 63) % 2 ^ 64 - 2 ^ 63

/-- Conversion of the `float64` of value `num / den` to `int`: truncation
toward zero; outside the range of `int` the result is implementation-specific. -/
def floatToInt (d : Deps) (num : Int) (den : Nat) : Int :=
  if den = 0 then d.floatOverflow 0
  else if -(2 ^ 63) ≤ Int.tdiv num den ∧ Int.tdiv num den < 2 ^ 63 then Int.tdiv num den
  else d.floatOverflow (Int.tdiv num den)

/-- Decoding into an `int`. -/
def decodeInt (d : Deps) : Any → Option Int
  | Any.int n => some (wrapInt64 n)
  | Any.float num den => some (floatToInt d num den)
  | v => d.weakInt v

/-- Decoding into a `string`. -/
def decodeString (d : Deps) : Any → Option String
  | Any.str s => some s
  | v => d.weakString v

/-- Decoding of one struct field, slice element or map value: a missing key
and nil data leave the target at its zero value. -/
def decodeField {α : Type} (dec : Any → Option α) (zero : α) : Option Any → Option α
  | none => some zero
  | some Any.nil => some zero
  | some v => dec v

/-- Decoding of the elements of a slice, in order. -/
def decodeElems {α : Type} (dec : Any → Option α) (zero : α) : List Any → Option (List α)
  | [] => some []
  | x :: xs =>
    (decodeField dec zero (some x)).bind fun a =>
    (decodeElems dec zero xs).bind fun rest =>
    some (a :: rest)

/-- Decoding into a slice. -/
def decodeSlice {α : Type} (d : Deps) (dec : Any → Option α) (zero : α) : Any → Option (List α)
  | Any.slice xs => decodeElems dec zero xs
  | v => (d.weakSlice v).bind (decodeElems dec zero)

/-- Lower-casing of a string (ASCII). -/
def lower (s : String) : String :=
  String.mk (s.data.map Char.toLower)

/-- The entry of a map for a struct field: the entry of that very name, else
the first entry met whose key equals the name up to case. -/
def lookupFold (w : World) (name : String) (kvs : List (String × Any)) : Option Any :=
  match lookup name kvs with
  | some v => some v
  | none => ((w.foldOrder kvs).find? fun e => lower e.1 = lower name).map fun e => e.2

/-- Decoding into an `AllowedSize`, an element of a list: the keys of its map
are as written in the document and match the untagged fields `Height` and
`Width` up to case. -/
def decodeAllowedSize (d : Deps) (w : World) : Any → Option AllowedSize
  | Any.map kvs =>
    (decodeField (decodeInt d) 0 (lookupFold w "Height" kvs)).bind fun height =>
    (decodeField (decodeInt d) 0 (lookupFold w "Width" kvs)).bind fun width =>
    some { Height := height, Width := width }
  | _ => none

/-- Decoding of the entries of a `map[string]string`. -/
def decodeTagEntries (d : Deps) : List (String × Any) → Option (List (String × String))
  | [] => some []
  | (k, v) :: rest =>
    (decodeField (decodeString d) "" (some v)).bind fun s =>
    (decodeTagEntries d rest).bind fun tags =>
    some ((k, s) :: tags)

/-- Decoding into a `map[string]string`. -/
def decodeTags (d : Deps) : Any → Option (List (String × String))
  | Any.map kvs => decodeTagEntries d kvs
  | v => (d.weakMap v).bind (decodeTagEntries d)

/-- Decoding into a `Sentry`: untagged fields `DSN` and `Tags`. -/
def decodeSentry (d : Deps) : Any → Option Sentry
  | Any.map kvs =>
    (decodeField (decodeString d) "" (lookup "dsn" kvs)).bind fun dsn =>
    (decodeField (decodeTags d) [] (lookup "tags" kvs)).bind fun tags =>
    some { DSN := dsn, Tags := tags }
  | _ => none

/-- Decoding into a `Shard`: from a map by the lower-cased names of the
untagged fields `Depth`, `Width`, `RestOnly`; from a `*Shard` by copy (the
nil pointer, which `DefaultConfig` never returns, is rejected). -/
def decodeShard (d : Deps) : Any → Option Shard
  | Any.map kvs =>
    (decodeField (decodeInt d) 0 (lookup "depth" kvs)).bind fun depth =>
    (decodeField (decodeInt d) 0 (lookup "width" kvs)).bind fun width =>
    (decodeField (decodeBool d) false (lookup "restonly" kvs)).bind fun restOnly =>
    some { Depth := depth, Width := width, RestOnly := restOnly }
  | Any.shardPtr (some s) => some s
  | _ => none

/-- Decoding into an `Options`: from a map by the `mapstructure` tags of the
fields; from an `*Options` by copy (the nil pointer, which `DefaultConfig`
never returns, is rejected). -/
def decodeOptions (d : Deps) (w : World) : Any → Option Options
  | Any.map kvs =>
    (decodeField (decodeBool d) false (lookup "enable_upload" kvs)).bind fun up =>
    (decodeField (decodeBool d) false (lookup "enable_delete" kvs)).bind fun del =>
    (decodeField (decodeBool d) false (lookup "enable_stats" kvs)).bind fun stats =>
    (decodeField (decodeSlice d (decodeAllowedSize d w) { Height := 0, Width := 0 }) []
      (lookup "allowed_sizes" kvs)).bind fun sizes =>
    (decodeField (decodeString d) "" (lookup "default_user_agent" kvs)).bind fun ua =>
    (decodeField (decodeString d) "" (lookup "mimetype_detector" kvs)).bind fun mime =>
    some
      { EnableUpload := up
        EnableDelete := del
        EnableStats := stats
        AllowedSizes := sizes
        DefaultUserAgent := ua
        MimetypeDetector := mime }
  | Any.optionsPtr (some o) => some o
  | _ => none

/-- Decoding into a `kvstore.Config`: a `*kvstore.Config` by copy, anything
else by the owner of the type. -/
def decodeKVStorePtr (d : Deps) : Any → Option KVStoreConfig
  | Any.kvstorePtr (some k) => some k
  | Any.kvstorePtr none => none
  | v => d.decodeKVStore v

/-- Decoding of a pointer field: it stays nil when the key is missing or the
data is nil. -/
def decodePtr {α : Type} (dec : Any → Option α) (data : Option Any) : Option (Option α) :=
  decodeField (fun v => (dec v).map some) none data

/-- Decoding of the settings into a fresh `Config`, field by field, by
`mapstructure` tag or lower-cased field name; keys that match no field are
ignored; `none` is a decode error. -/
def decodeConfig (d : Deps) (w : World) (m : String → Option Any) : Option Config :=
  (decodeField (decodeBool d) false (m "debug")).bind fun debug =>
  (decodePtr d.decodeEngine (m "engine")).bind fun engine =>
  (decodePtr (decodeSentry d) (m "sentry")).bind fun sentry =>
  (decodeField (decodeString d) "" (m "secret_key")).bind fun secretKey =>
  (decodePtr (decodeShard d) (m "shard")).bind fun shard =>
  (decodeField (decodeInt d) 0 (m "port")).bind fun port =>
  (decodePtr (decodeOptions d w) (m "options")).bind fun options =>
  (decodeField (decodeSlice d (decodeString d) "") [] (m "allowed_origins")).bind fun origins =>
  (decodeField (decodeSlice d (decodeString d) "") [] (m "allowed_methods")).bind fun methods =>
  (decodeField (decodeSlice d (decodeString d) "") [] (m "allowed_headers")).bind fun headers =>
  (decodePtr d.decodeStorage (m "storage")).bind fun storage =>
  (decodePtr (decodeKVStorePtr d) (m "kvstore")).bind fun kvstore =>
  (decodeField d.decodeLogger { payload := [] } (m "logger")).bind fun logger =>
  some
    { Debug := debug
      Engine := engine
      Sentry := sentry
      SecretKey := secretKey
      Shard := shard
      Port := port
      Options := options
      AllowedOrigins := origins
      AllowedMethods := methods
      AllowedHeaders := headers
      Storage := storage
      KVStore := kvstore
      Logger := logger }

/-- Unmarshal: all settings decoded into a fresh `Config`. -/
def Viper.Unmarshal (d : Deps) (w : World) (v : Viper) : Option Config :=
  decodeConfig d w fun key => lookup key (v.AllSettings w)

/-! ## `load`, `Load`, `LoadFromContent` (`config.go`, lines 88-137) -/

/-- The pair `(*Config, error)` a load returns. -/
structure LoadResult where
  config : Option Config
  err : Option LoadError

/-- The registrations at the head of `load` (lines 91-97). -/
def seed (d : Deps) (v : Viper) : Viper :=
  let defaultConfig := DefaultConfig d
  let v := v.SetDefault "options" (Any.optionsPtr defaultConfig.Options)
  let v := v.SetDefault "shard" (Any.shardPtr defaultConfig.Shard)
  let v := v.SetDefault "port" (Any.int defaultConfig.Port)
  let v := v.SetDefault "kvstore" (Any.kvstorePtr defaultConfig.KVStore)
  v.SetEnvPrefix "picfit"

/-- The read step of `load` (lines 101-115): a path is read through
`ReadInConfig`, inline content through `ReadConfig` with the type `json`. -/
def readSource (d : Deps) (w : World) (v : Viper) (content : String) (isPath : Bool) :
    Option LoadError × Viper :=
  if isPath = true then
    (v.SetConfigFile content).ReadInConfig d w
  else
    (v.SetConfigType "json").ReadConfig w content

/-- The function `load`: the result pair and the merge instance it leaves
behind. -/
def load (d : Deps) (w : World) (v : Viper) (content : String) (isPath : Bool) :
    LoadResult × Viper :=
  let defaultConfig := DefaultConfig d
  let v := seed d v
  match readSource d w v content isPath with
  | (some err, v) => ({ config := none, err := some err }, v)
  | (none, v) =>
    match v.Unmarshal d w with
    | none => ({ config := none, err := some LoadError.decodeError }, v)
    | some config =>
      let config :=
        match config.Engine with
        | none => { config with Engine := defaultConfig.Engine }
        | some _ => config
      ({ config := some config, err := none }, v)

/-- Load creates a Config struct from a config file path. -/
def Load (d : Deps) (w : World) (v : Viper) (path : String) : LoadResult × Viper :=
  load d w v path true

/-- LoadFromContent creates a Config struct from a config content. -/
def LoadFromContent (d : Deps) (w : World) (v : Viper) (content : String) :
    LoadResult × Viper :=
  load d w v content false

/-- One earlier call of `Load` or `LoadFromContent` in the process. -/
structure Call where
  world : World
  content : String
  isPath : Bool

/-- The merge instance after a history of calls (most recent first) in a
process that started with a fresh instance. -/
def replay (d : Deps) : List Call → Viper
  | [] => Viper.New
  | c :: earlier => (load d c.world (replay d earlier) c.content c.isPath).2

/-! ## Documents and integers, for the statements -/

/-- The document a call is about: for inline content, what the reader makes of
the content as JSON; for a path, what it makes of the file (the file of an
earlier call when the path is empty) under the config type in force, which is
the extension of the file unless a type has been set explicitly. -/
def documentOf (w : World) (v : Viper) (content : String) (isPath : Bool) : Option Tree :=
  if isPath = true then
    (w.readFile (if content ≠ "" then content else v.configFile)).bind
      (w.unmarshalReader
        (if v.configType ≠ "" then v.configType
         else fileExt (if content ≠ "" then content else v.configFile)))
  else w.unmarshalReader "json" content

/-- The least `k` with `a < 2 ^ (53 + k)`, searched from `k` on. -/
def shiftFor : Nat → Nat → Nat → Nat
  | 0, _, k => k
  | fuel + 1, a, k => if a < 2 ^ (53 + k) then k else shiftFor fuel a (k + 1)

/-- The natural number nearest to `a` with 53 significant bits, ties to the
even significand. -/
def roundNat (a : Nat) : Nat :=
  if 2 ^ shiftFor a a 0 < 2 * (a % 2 ^ shiftFor a a 0) ∨
      (2 * (a % 2 ^ shiftFor a a 0) = 2 ^ shiftFor a a 0 ∧
        a / 2 ^ shiftFor a a 0 % 2 = 1) then
    (a / 2 ^ shiftFor a a 0 + 1) * 2 ^ shiftFor a a 0
  else a / 2 ^ shiftFor a a 0 * 2 ^ shiftFor a a 0

/-- The value of the `float64` nearest to an integer (below `2 ^ 1024` in
absolute value). -/
def round64 (n : Int) : Int :=
  if n < 0 then -(roundNat n.natAbs : Int) else (roundNat n.natAbs : Int)

/-- The value under which the integer `n`, written in a JSON document, reaches
the decoder: the nearest `float64`. -/
def jsonInt (n : Int) : Any :=
  Any.float (round64 n) 1

/-- The value `v` of a document is the integer `n`, in one of the two forms
the decoder converts exactly: a Go integer in the range of `int`, or a JSON
number of absolute value at most `2 ^ 53`. -/
def IsInt (v : Any) (n : Int) : Prop :=
  (v = Any.int n ∧ -(2 ^ 63) ≤ n ∧ n < 2 ^ 63) ∨
  (v = jsonInt n ∧ -(2 ^ 53) ≤ n ∧ n ≤ 2 ^ 53)

/-- The document has the entry `key: val`, and no other entry whose key is
`key` or begins with `key` and the delimiter. -/
def SoleKey (doc : List (String × Any)) (key : String) (val : Any) : Prop :=
  (key, val) ∈ doc ∧ ∀ e ∈ doc, (splitKey e.1).head? = some key → e = (key, val)

/-- The document has no entry whose key is `key` or begins with `key` and the
delimiter. -/
def NoKey (doc : List (String × Any)) (key : String) : Prop :=
  ∀ e ∈ doc, (splitKey e.1).head? ≠ some key

/-- An object whose keys hold no delimiter and whose values are scalars or
lists. -/
def Plain (kvs : List (String × Any)) : Prop :=
  ∀ e ∈ kvs, splitKey e.1 = [e.1] ∧ ∀ m, e.2 ≠ Any.map m

/-- The enumerations of a world are permutations. -/
def World.Fair (w : World) : Prop :=
  (∀ keys, (w.keyOrder keys).Perm keys) ∧ ∀ kvs, (w.foldOrder kvs).Perm kvs

/-! ## A concrete instance, for evaluation on examples -/

/-- A reader instance restricted to the documents of the examples below:
seven JSON texts and one YAML text; every other text is rejected. -/
def sampleReader (configType content : String) : Option Tree :=
  if configType = "json" then
    if content = "\x7b\x7d" then some []
    else if content = "\x7b\"port\": 9000, \"options\": \x7b\"enable_upload\": true\x7d\x7d" then
      some [("port", jsonInt 9000), ("options", Any.map [("enable_upload", Any.bool true)])]
    else if content = "\x7b\"shard\": \x7b\"rest_only\": true\x7d\x7d" then
      some [("shard", Any.map [("rest_only", Any.bool true)])]
    else if content = "\x7b\"secret_key\": \"abc\", \"shard\": \x7b\"restonly\": true\x7d\x7d" then
      some [("secret_key", Any.str "abc"), ("shard", Any.map [("restonly", Any.bool true)])]
    else if content = "\x7b\"shard.depth\": 2\x7d" then
      some [("shard.depth", jsonInt 2)]
    else if content = "\x7b\"engine.quality\": 50\x7d" then
      some [("engine.quality", jsonInt 50)]
    else if content = "\x7b\"port\": 9007199254740993\x7d" then
      some [("port", jsonInt 9007199254740993)]
    else none
  else if configType = "yaml" then
    if content = "port: 9000" then some [("port", Any.int 9000)] else none
  else none

/-- Value of a decimal numeral, `acc` being the value of the digits read. -/
def digitsValue : List Char → Nat → Option Nat
  | [], acc => some acc
  | c :: cs, acc =>
    if '0'.toNat ≤ c.toNat ∧ c.toNat ≤ '9'.toNat then
      digitsValue cs (acc * 10 + (c.toNat - '0'.toNat))
    else none

/-- Value of a decimal numeral with an optional sign. -/
def parseDecimal (s : String) : Option Int :=
  match s.data with
  | [] => none
  | '-' :: c :: cs => (digitsValue (c :: cs) 0).map fun n => -(n : Int)
  | '+' :: c :: cs => (digitsValue (c :: cs) 0).map fun n => (n : Int)
  | cs => (digitsValue cs 0).map fun n => (n : Int)

/-- Sample constants and collaborators.  The weak conversions cover `bool`
and numbers given as numbers, as decimal numerals or as `true`/`false`; the
collaborator sub-documents are decoded from maps. -/
def sampleDeps : Deps :=
  { DefaultFormat := "png"
    DefaultQuality := 95
    DefaultPort := 3001
    DefaultUserAgent := "picfit"
    DefaultMimetypeDetector := "extension"
    DefaultShardWidth := 0
    DefaultShardDepth := 0
    DefaultShardRestOnly := true
    Version := "0.5.0"
    supported := fun t =>
      t = "json" ∨ t = "toml" ∨ t = "yaml" ∨ t = "yml" ∨ t = "properties" ∨ t = "props" ∨
        t = "prop" ∨ t = "hcl"
    floatOverflow := fun _ => -(2 ^ 63)
    weakBool := fun v => match v with
      | Any.int n => some (n != 0)
      | Any.float num _ => some (num != 0)
      | Any.str s =>
        if s = "1" ∨ s = "t" ∨ s = "T" ∨ s = "true" ∨ s = "TRUE" ∨ s = "True" then some true
        else if s = "0" ∨ s = "f" ∨ s = "F" ∨ s = "false" ∨ s = "FALSE" ∨ s = "False" ∨ s = ""
        then some false
        else none
      | _ => none
    weakInt := fun v => match v with
      | Any.bool b => some (if b then 1 else 0)
      | Any.str s => if s = "" then some 0 else (parseDecimal s).map wrapInt64
      | _ => none
    weakString := fun v => match v with
      | Any.bool b => some (if b then "1" else "0")
      | _ => none
    weakSlice := fun _ => none
    weakMap := fun _ => none
    decodeEngine := fun v => match v with
      | Any.map kvs =>
        some
          { DefaultFormat := match lookup "default_format" kvs with
              | some (Any.str s) => s
              | _ => ""
            Quality := match lookup "quality" kvs with
              | some (Any.int n) => wrapInt64 n
              | some (Any.float num den) => Int.tdiv num den
              | _ => 0
            Format := match lookup "format" kvs with
              | some (Any.str s) => s
              | _ => "" }
      | _ => none
    decodeStorage := fun v => match v with
      | Any.map kvs => some { payload := kvs }
      | _ => none
    decodeKVStore := fun v => match v with
      | Any.map kvs =>
        some { Type_ := match lookup "type" kvs with
          | some (Any.str s) => s
          | _ => "" }
      | _ => none
    decodeLogger := fun v => match v with
      | Any.map kvs => some { payload := kvs }
      | _ => none }

/-- A sample world: one YAML file and one JSON file, the variable
`PICFIT_PORT` set to `9999`, key paths enumerated in the order given. -/
def sampleWorld : World :=
  { readFile := fun path =>
      if path = "config.yaml" then some "port: 9000"
      else if path = "config.json" then some "\x7b\x7d"
      else none
    getenv := fun name => if name = "PICFIT_PORT" then "9999" else ""
    unmarshalReader := sampleReader
    keyOrder := fun keys => keys
    foldOrder := fun kvs => kvs }

/-- A world with no file and an empty environment, key paths enumerated in
the order given. -/
def emptyWorld : World :=
  { readFile := fun _ => none
    getenv := fun _ => ""
    unmarshalReader := sampleReader
    keyOrder := fun keys => keys
    foldOrder := fun kvs => kvs }

/-- The world `emptyWorld` with the key paths enumerated in the opposite
order. -/
def reversedWorld : World :=
  { emptyWorld with keyOrder := fun keys => keys.reverse }

/-! ## Auxiliary definitions for the statements -/

/-- The defaults every load registers. -/
def seededDefaults (d : Deps) : List (String × Any) :=
  (seed d Viper.New).defaults

/-- The part of the merge instance that no load changes: automatic
environment lookup is off and the defaults are either untouched or the ones
`load` registers. -/
def Clean (d : Deps) (v : Viper) : Prop :=
  v.automaticEnvApplied = false ∧ (v.defaults = [] ∨ v.defaults = seededDefaults d)

/-- The back-fill at the end of `load` (lines 122-124). -/
def withEngineDefault (d : Deps) (c : Config) : Config :=
  match c.Engine with
  | none => { c with Engine := (DefaultConfig d).Engine }
  | some _ => c

/-- A configuration loaded from the empty JSON document under `sampleDeps`. -/
def sampleLoaded : Config :=
  { Debug := false
    Engine := some { DefaultFormat := "png", Quality := 95, Format := "" }
    Sentry := none
    SecretKey := ""
    Shard := some { Depth := 0, Width := 0, RestOnly := true }
    Port := 3001
    Options := some
      { EnableUpload := false
        EnableDelete := false
        EnableStats := false
        AllowedSizes := []
        DefaultUserAgent := "picfit/0.5.0"
        MimetypeDetector := "extension" }
    AllowedOrigins := []
    AllowedMethods := []
    AllowedHeaders := []
    Storage := none
    KVStore := some { Type_ := "dummy" }
    Logger := { payload := [] } }

/-- The configuration loaded from the sample YAML file under `sampleDeps`. -/
def sampleLoadedYaml : Config :=
  { sampleLoaded with Port := 9000 }

/-- The configuration loaded under `sampleDeps` from the inline document
with `port` 9000 and `options.enable_upload` true. -/
def sampleLoadedUpload : Config :=
  { sampleLoaded with
    Port := 9000
    Options := some
      { EnableUpload := true
        EnableDelete := false
        EnableStats := false
        AllowedSizes := []
        DefaultUserAgent := ""
        MimetypeDetector := "" } }

/-- The configuration loaded under `sampleDeps` from the inline document
with `shard.rest_only` true. -/
def sampleLoadedRestOnly : Config :=
  { sampleLoaded with Shard := some { Depth := 0, Width := 0, RestOnly := false } }

/-- The configuration loaded under `sampleDeps` from the inline document
with `secret_key` "abc" and `shard.restonly` true. -/
def sampleLoadedSecret : Config :=
  { sampleLoaded with
    SecretKey := "abc"
    Shard := some { Depth := 0, Width := 0, RestOnly := true } }

/-- The configuration loaded under `sampleDeps` from the inline document with
the single key `engine.quality`, of value 50. -/
def sampleLoadedQuality : Config :=
  { sampleLoaded with Engine := some { DefaultFormat := "", Quality := 50, Format := "" } }

/-- The configuration loaded under `sampleDeps` from the inline document with
the single key `shard.depth`, of value 2, when the key path `shard` is
enumerated before the key path `shard.depth`. -/
def sampleLoadedDepth : Config :=
  { sampleLoaded with Shard := some { Depth := 2, Width := 0, RestOnly := false } }

/-- The configuration loaded under `sampleDeps` from the inline document with
`port` 9007199254740993. -/
def sampleLoadedBigPort : Config :=
  { sampleLoaded with Port := 9007199254740992 }

/-- A list of strings as a document value. -/
def ofStrings (xs : List String) : Any :=
  Any.slice (xs.map Any.str)

/-- The list `vs` of document values is the list `xs` of allowed sizes: each
value is an object with the keys `height` and `width` set to the integers of
the size. -/
def IsSizes : List Any → List AllowedSize → Prop
  | [], [] => True
  | v :: vs, a :: xs =>
    (∃ h w, v = Any.map [("height", h), ("width", w)] ∧ IsInt h a.Height ∧ IsInt w a.Width) ∧
      IsSizes vs xs
  | _, _ => False

/-! ## Auxiliary facts: the state of the merge instance -/

theorem seed_defaults (d : Deps) (v : Viper) (h : Clean d v) :
    (seed d v).defaults = seededDefaults d := by
  obtain ⟨cf, ct, ep, ae, cfg, defs⟩ := v
  rcases h.2 with h0 | h1
  · simp only at h0
    subst h0
    rfl
  · simp only at h1
    subst h1
    simp [seed, seededDefaults, Viper.SetDefault, Viper.SetEnvPrefix, Viper.New, List.filter]

theorem seed_fields (d : Deps) (v : Viper) :
    (seed d v).automaticEnvApplied = v.automaticEnvApplied ∧
    (seed d v).configType = v.configType ∧
    (seed d v).configFile = v.configFile ∧
    (seed d v).config = v.config ∧
    (seed d v).envPrefix = "picfit" := by
  simp [seed, Viper.SetDefault, Viper.SetEnvPrefix]

theorem SetConfigFile_fields (v : Viper) (path : String) :
    (v.SetConfigFile path).automaticEnvApplied = v.automaticEnvApplied ∧
    (v.SetConfigFile path).defaults = v.defaults ∧
    (v.SetConfigFile path).envPrefix = v.envPrefix ∧
    (v.SetConfigFile path).configType = v.configType ∧
    (v.SetConfigFile path).config = v.config ∧
    (v.SetConfigFile path).configFile = (if path ≠ "" then path else v.configFile) := by
  unfold Viper.SetConfigFile
  split <;> simp

theorem ReadConfig_fields (w : World) (v : Viper) (content : String) :
    (v.ReadConfig w content).2.automaticEnvApplied = v.automaticEnvApplied ∧
    (v.ReadConfig w content).2.defaults = v.defaults ∧
    (v.ReadConfig w content).2.envPrefix = v.envPrefix ∧
    (v.ReadConfig w content).2.configType = v.configType ∧
    (v.ReadConfig w content).2.configFile = v.configFile := by
  unfold Viper.ReadConfig
  split <;> simp

theorem ReadInConfig_fields (d : Deps) (w : World) (v : Viper) :
    (v.ReadInConfig d w).2.automaticEnvApplied = v.automaticEnvApplied ∧
    (v.ReadInConfig d w).2.defaults = v.defaults ∧
    (v.ReadInConfig d w).2.envPrefix = v.envPrefix ∧
    (v.ReadInConfig d w).2.configType = v.configType ∧
    (v.ReadInConfig d w).2.configFile = v.configFile := by
  unfold Viper.ReadInConfig
  split_ifs
  · simp
  · simp
  · cases w.readFile v.configFile with
    | none => simp
    | some bytes =>
      simp only
      split <;> simp

theorem readSource_fields (d : Deps) (w : World) (v : Viper) (content : String)
    (isPath : Bool) :
    (readSource d w v content isPath).2.automaticEnvApplied = v.automaticEnvApplied ∧
    (readSource d w v content isPath).2.defaults = v.defaults ∧
    (readSource d w v content isPath).2.envPrefix = v.envPrefix := by
  cases isPath
  · obtain ⟨h1, h2, h3, _⟩ := ReadConfig_fields w (v.SetConfigType "json") content
    simp only [readSource, Bool.false_eq_true, if_false]
    exact ⟨h1, h2, h3⟩
  · obtain ⟨h1, h2, h3, _⟩ := ReadInConfig_fields d w (v.SetConfigFile content)
    obtain ⟨g1, g2, g3, _⟩ := SetConfigFile_fields v content
    simp only [readSource, if_true]
    exact ⟨h1.trans g1, h2.trans g2, h3.trans g3⟩

theorem load_state (d : Deps) (w : World) (v : Viper) (content : String) (isPath : Bool) :
    (load d w v content isPath).2 = (readSource d w (seed d v) content isPath).2 := by
  unfold load
  simp only
  split
  · next h => simp [h]
  · next h =>
    simp only [h]
    split <;> rfl

theorem load_clean (d : Deps) (w : World) (v : Viper) (content : String) (isPath : Bool)
    (h : Clean d v) : Clean d (load d w v content isPath).2 := by
  rw [load_state]
  obtain ⟨h1, h2, _⟩ := readSource_fields d w (seed d v) content isPath
  refine ⟨?_, Or.inr ?_⟩
  · rw [h1, (seed_fields d v).1]; exact h.1
  · rw [h2]; exact seed_defaults d v h

theorem replay_clean (d : Deps) (history : List Call) : Clean d (replay d history) := by
  induction history with
  | nil => exact ⟨rfl, Or.inl rfl⟩
  | cons c earlier ih => exact load_clean d c.world _ c.content c.isPath ih

theorem load_result (d : Deps) (w : World) (v : Viper) (content : String) (isPath : Bool) :
    (load d w v content isPath).1 =
      match (readSource d w (seed d v) content isPath).1 with
      | some e => { config := none, err := some e }
      | none =>
        match (readSource d w (seed d v) content isPath).2.Unmarshal d w with
        | none => { config := none, err := some LoadError.decodeError }
        | some c => { config := some (withEngineDefault d c), err := none } := by
  unfold load
  simp only
  split
  · next h => simp [h]
  · next h =>
    simp only [h]
    split <;> rfl

theorem ReadInConfig_document (d : Deps) (w : World) (v : Viper) (doc : Tree)
    (hok : (v.ReadInConfig d w).1 = none)
    (hdoc : (w.readFile v.configFile).bind (w.unmarshalReader v.getConfigType) = some doc) :
    (v.ReadInConfig d w).2.config = doc := by
  unfold Viper.ReadInConfig at hok ⊢
  split_ifs at hok ⊢
  cases hr : w.readFile v.configFile with
  | none => simp [hr] at hdoc
  | some bytes =>
    simp only [hr, Option.some_bind] at hdoc
    simp [hdoc]

theorem readSource_document (d : Deps) (w : World) (v : Viper) (content : String)
    (isPath : Bool) (doc : Tree)
    (hok : (readSource d w v content isPath).1 = none)
    (hdoc : documentOf w v content isPath = some doc) :
    (readSource d w v content isPath).2.config = doc := by
  cases isPath with
  | false =>
    simp only [documentOf, Bool.false_eq_true, if_false] at hdoc
    simp only [readSource, Bool.false_eq_true, if_false, Viper.ReadConfig,
      Viper.SetConfigType, Viper.getConfigType] at hok ⊢
    simp [hdoc] at hok ⊢
  | true =>
    obtain ⟨_, _, _, g4, _, g6⟩ := SetConfigFile_fields v content
    simp only [documentOf, if_true] at hdoc
    simp only [readSource, if_true] at hok ⊢
    apply ReadInConfig_document d w _ doc hok
    simp only [Viper.getConfigType, g4, g6]
    exact hdoc

theorem load_some (d : Deps) (w : World) (v : Viper) (content : String) (isPath : Bool)
    (cfg : Config) (doc : Tree) (hv : Clean d v)
    (hok : (load d w v content isPath).1.config = some cfg)
    (hdoc : documentOf w v content isPath = some doc) :
    ∃ (v2 : Viper) (c : Config), v2.automaticEnvApplied = false ∧ v2.defaults = seededDefaults d ∧
      v2.config = doc ∧
      decodeConfig d w (fun key => lookup key (v2.AllSettings w)) = some c ∧
      cfg = withEngineDefault d c := by
  have hc := load_clean d w v content isPath hv
  have hs := load_state d w v content isPath
  obtain ⟨_, h2, _⟩ := readSource_fields d w (seed d v) content isPath
  obtain ⟨_, s2, s3, _, _⟩ := seed_fields d v
  have hdoc2 : documentOf w (seed d v) content isPath = some doc := by
    simpa [documentOf, s2, s3] using hdoc
  rw [load_result] at hok
  refine ⟨(readSource d w (seed d v) content isPath).2, ?_⟩
  split at hok
  · simp at hok
  · next hr =>
    split at hok
    · simp at hok
    · next c hc0 =>
      simp only [Option.some.injEq] at hok
      refine ⟨c, ?_, ?_, readSource_document d w _ content isPath doc hr hdoc2, hc0, hok.symm⟩
      · rw [← hs]; exact hc.1
      · rw [h2]; exact seed_defaults d v hv

theorem withEngineDefault_fields (d : Deps) (c : Config) :
    (withEngineDefault d c).Debug = c.Debug ∧
    (withEngineDefault d c).Sentry = c.Sentry ∧
    (withEngineDefault d c).SecretKey = c.SecretKey ∧
    (withEngineDefault d c).Shard = c.Shard ∧
    (withEngineDefault d c).Port = c.Port ∧
    (withEngineDefault d c).Options = c.Options ∧
    (withEngineDefault d c).AllowedOrigins = c.AllowedOrigins ∧
    (withEngineDefault d c).AllowedMethods = c.AllowedMethods ∧
    (withEngineDefault d c).AllowedHeaders = c.AllowedHeaders ∧
    (withEngineDefault d c).Storage = c.Storage ∧
    (withEngineDefault d c).KVStore = c.KVStore ∧
    (withEngineDefault d c).Logger = c.Logger := by
  unfold withEngineDefault
  cases c.Engine <;> simp

theorem foldl_preserve {σ κ : Type} (step : σ → κ → σ) (P : σ → Prop) (l : List κ)
    (hpres : ∀ m k, k ∈ l → P m → P (step m k)) (m0 : σ) (h0 : P m0) :
    P (l.foldl step m0) := by
  induction l generalizing m0 with
  | nil => exact h0
  | cons k rest ih =>
    exact ih (fun m k2 hk hm => hpres m k2 (List.mem_cons_of_mem _ hk) hm) _
      (hpres m0 k (List.mem_cons_self _ _) h0)

theorem foldl_establish {σ κ : Type} (step : σ → κ → σ) (P : σ → Prop) (l : List κ)
    (key : κ) (hkey : key ∈ l) (hest : ∀ m, P (step m key))
    (hpres : ∀ m k, k ∈ l → P m → P (step m k)) (m0 : σ) :
    P (l.foldl step m0) := by
  induction l generalizing m0 with
  | nil => simp at hkey
  | cons k rest ih =>
    by_cases hk : key ∈ rest
    · exact ih hk (fun m k2 h2 hm => hpres m k2 (List.mem_cons_of_mem _ h2) hm) _
    · have : key = k := by
        rcases List.mem_cons.mp hkey with h | h
        · exact h
        · exact absurd h hk
      subst this
      exact foldl_preserve step P rest
        (fun m k2 h2 hm => hpres m k2 (List.mem_cons_of_mem _ h2) hm) _ (hest m0)

theorem decodeConfig_some (d : Deps) (w : World) (m : String → Option Any) (c : Config)
    (h : decodeConfig d w m = some c) :
    decodeField (decodeBool d) false (m "debug") = some c.Debug ∧
    decodePtr d.decodeEngine (m "engine") = some c.Engine ∧
    decodePtr (decodeSentry d) (m "sentry") = some c.Sentry ∧
    decodeField (decodeString d) "" (m "secret_key") = some c.SecretKey ∧
    decodePtr (decodeShard d) (m "shard") = some c.Shard ∧
    decodeField (decodeInt d) 0 (m "port") = some c.Port ∧
    decodePtr (decodeOptions d w) (m "options") = some c.Options ∧
    decodeField (decodeSlice d (decodeString d) "") [] (m "allowed_origins")
      = some c.AllowedOrigins ∧
    decodeField (decodeSlice d (decodeString d) "") [] (m "allowed_methods")
      = some c.AllowedMethods ∧
    decodeField (decodeSlice d (decodeString d) "") [] (m "allowed_headers")
      = some c.AllowedHeaders ∧
    decodePtr d.decodeStorage (m "storage") = some c.Storage ∧
    decodePtr (decodeKVStorePtr d) (m "kvstore") = some c.KVStore ∧
    decodeField d.decodeLogger { payload := [] } (m "logger") = some c.Logger := by
  simp only [decodeConfig, Option.bind_eq_some] at h
  obtain ⟨a1, h1, a2, h2, a3, h3, a4, h4, a5, h5, a6, h6, a7, h7, a8, h8, a9, h9,
    a10, h10, a11, h11, a12, h12, a13, h13, hc⟩ := h
  simp only [Option.some.injEq] at hc
  subst hc
  exact ⟨h1, h2, h3, h4, h5, h6, h7, h8, h9, h10, h11, h12, h13⟩

/-! ## Auxiliary facts: keys and key paths -/

theorem splitAux_ne_nil (cs acc : List Char) : splitAux cs acc ≠ [] := by
  induction cs generalizing acc with
  | nil => simp [splitAux]
  | cons c rest ih =>
    unfold splitAux
    split
    · simp
    · exact ih _

theorem splitAux_of_no_dot (cs acc : List Char) (h : '.' ∉ cs) :
    splitAux cs acc = [String.mk (acc.reverse ++ cs)] := by
  induction cs generalizing acc with
  | nil => simp [splitAux]
  | cons c rest ih =>
    have hc : c ≠ '.' := fun e => h (by simp [e])
    have hr : '.' ∉ rest := fun e => h (List.mem_cons_of_mem _ e)
    simp [splitAux, hc, ih _ hr]

theorem splitAux_length_of_dot (cs acc : List Char) (h : '.' ∈ cs) :
    2 ≤ (splitAux cs acc).length := by
  induction cs generalizing acc with
  | nil => simp at h
  | cons c rest ih =>
    unfold splitAux
    by_cases hc : c = '.'
    · simp only [hc, if_true, List.length_cons]
      have := List.length_pos.mpr (splitAux_ne_nil rest [])
      omega
    · simp only [hc, if_false]
      have hr : '.' ∈ rest := by
        rcases List.mem_cons.mp h with e | e
        · exact absurd e.symm hc
        · exact e
      exact ih _ hr

theorem no_dot_of_splitKey (k : String) (h : splitKey k = [k]) : '.' ∉ k.data := by
  intro hd
  have := splitAux_length_of_dot k.data [] hd
  unfold splitKey at h
  rw [h] at this
  simp at this

theorem splitAux_append_dot (xs ys acc : List Char) (h : '.' ∉ xs) :
    splitAux (xs ++ '.' :: ys) acc = String.mk (acc.reverse ++ xs) :: splitAux ys [] := by
  induction xs generalizing acc with
  | nil => simp [splitAux]
  | cons c rest ih =>
    have hc : c ≠ '.' := fun e => h (by simp [e])
    have hr : '.' ∉ rest := fun e => h (List.mem_cons_of_mem _ e)
    simp [splitAux, hc, ih _ hr]

theorem splitKey_joinKey_head (s t : String) (rest : List String) (h : splitKey s = [s]) :
    (splitKey (joinKey (s :: t :: rest))).head? = some s := by
  have hd := no_dot_of_splitKey s h
  have : (joinKey (s :: t :: rest)).data = s.data ++ '.' :: (joinKey (t :: rest)).data := by
    simp [joinKey, String.data_append]
  unfold splitKey
  rw [this, splitAux_append_dot _ _ _ hd]
  simp

theorem joinKey_ne (s t : String) (rest : List String) : joinKey (s :: t :: rest) ≠ s := by
  intro h
  have h2 := congrArg (fun x => x.data.length) h
  simp [joinKey, String.data_append] at h2

theorem lookup_mem (k : String) (kvs : List (String × Any)) (x : Any)
    (h : lookup k kvs = some x) : (k, x) ∈ kvs := by
  induction kvs with
  | nil => simp [lookup] at h
  | cons e rest ih =>
    obtain ⟨k2, v⟩ := e
    unfold lookup at h
    split at h
    · next hk =>
      simp only [Option.some.injEq] at h
      simp [hk, h]
    · exact List.mem_cons_of_mem _ (ih h)

theorem lookup_none_of_forall (k : String) (kvs : List (String × Any))
    (h : ∀ e ∈ kvs, e.1 ≠ k) : lookup k kvs = none := by
  cases hl : lookup k kvs with
  | none => rfl
  | some x => exact absurd rfl (h _ (lookup_mem k kvs x hl))

theorem lookup_of_sole (doc : List (String × Any)) (key : String) (val : Any)
    (h : SoleKey doc key val) (hk : splitKey key = [key]) : lookup key doc = some val := by
  obtain ⟨hm, hall⟩ := h
  induction doc with
  | nil => simp at hm
  | cons e rest ih =>
    obtain ⟨k2, v⟩ := e
    unfold lookup
    by_cases hkk : k2 = key
    · have := hall (k2, v) (List.mem_cons_self _ _) (by simp [hkk, hk])
      simp only [Prod.mk.injEq] at this
      simp [hkk, this.2]
    · simp only [hkk, if_false]
      apply ih
      · rcases List.mem_cons.mp hm with e | e
        · simp only [Prod.mk.injEq] at e
          exact absurd e.1.symm hkk
        · exact e
      · exact fun e he => hall e (List.mem_cons_of_mem _ he)

theorem lookup_joinKey_none (doc : List (String × Any)) (s t : String) (rest : List String)
    (hs : splitKey s = [s])
    (hall : ∀ e ∈ doc, (splitKey e.1).head? = some s → e.1 = s) :
    lookup (joinKey (s :: t :: rest)) doc = none := by
  apply lookup_none_of_forall
  intro e he heq
  have := hall e he (by rw [heq]; exact splitKey_joinKey_head s t rest hs)
  rw [heq] at this
  exact joinKey_ne s t rest this

mutual
theorem flattenVal_heads (pfx : List String) (v : Any) (p : List String)
    (h : p ∈ flattenVal pfx v) : pfx <+: p := by
  cases v with
  | map kvs =>
    simp only [flattenVal] at h
    obtain ⟨e, _, he⟩ := flattenMap_heads pfx kvs p h
    exact (List.prefix_append _ _).trans he
  | nil => simp only [flattenVal, List.mem_singleton] at h; rw [h]
  | bool b => simp only [flattenVal, List.mem_singleton] at h; rw [h]
  | int n => simp only [flattenVal, List.mem_singleton] at h; rw [h]
  | float num den => simp only [flattenVal, List.mem_singleton] at h; rw [h]
  | str s => simp only [flattenVal, List.mem_singleton] at h; rw [h]
  | slice xs => simp only [flattenVal, List.mem_singleton] at h; rw [h]
  | optionsPtr o => simp only [flattenVal, List.mem_singleton] at h; rw [h]
  | shardPtr o => simp only [flattenVal, List.mem_singleton] at h; rw [h]
  | kvstorePtr o => simp only [flattenVal, List.mem_singleton] at h; rw [h]
theorem flattenMap_heads (pfx : List String) (kvs : List (String × Any)) (p : List String)
    (h : p ∈ flattenMap pfx kvs) : ∃ e ∈ kvs, (pfx ++ splitKey e.1) <+: p := by
  cases kvs with
  | nil => simp [flattenMap] at h
  | cons e rest =>
    obtain ⟨k, v⟩ := e
    simp only [flattenMap, List.mem_append] at h
    rcases h with h | h
    · exact ⟨(k, v), List.mem_cons_self _ _, flattenVal_heads _ v p h⟩
    · obtain ⟨e, he, hp⟩ := flattenMap_heads pfx rest p h
      exact ⟨e, List.mem_cons_of_mem _ he, hp⟩
end

theorem flattenMap_mem (pfx : List String) (kvs : List (String × Any)) (p : List String) :
    p ∈ flattenMap pfx kvs ↔ ∃ e ∈ kvs, p ∈ flattenVal (pfx ++ splitKey e.1) e.2 := by
  induction kvs with
  | nil => simp [flattenMap]
  | cons e rest ih =>
    obtain ⟨k, v⟩ := e
    simp [flattenMap, ih]

theorem flattenVal_leaf (pfx : List String) (v : Any) (h : ∀ m, v ≠ Any.map m) :
    flattenVal pfx v = [pfx] := by
  cases v <;> simp_all [flattenVal]

theorem head_of_heads (k : String) (p : List String) (h : splitKey k <+: p) :
    p.head? = (splitKey k).head? := by
  obtain ⟨t, rfl⟩ := h
  cases hs : splitKey k with
  | nil => exact absurd hs (splitAux_ne_nil _ _)
  | cons a rest => simp

/-! ## Auxiliary facts: values of key paths and assignments -/

theorem find_single (w : World) (v : Viper) (k : String)
    (h : v.automaticEnvApplied = false) :
    v.find w [k] =
      match nonNil (lookup k v.config) with
      | some x => some x
      | none => nonNil (lookup k v.defaults) := by
  simp only [Viper.find, h, Bool.false_eq_true, false_and, if_false, List.length_singleton,
    searchWithPrefixes, searchAux, List.take, joinKey, properPrefixes, shadowedIn, searchMap]
  cases hl : lookup k v.config with
  | none => simp [nonNil, shadowedIn]
  | some x => cases x <;> simp [nonNil, shadowedIn]

theorem find_pair (w : World) (v : Viper) (s k : String) (kvs : List (String × Any))
    (h : v.automaticEnvApplied = false)
    (hj : lookup (joinKey [s, k]) v.config = none)
    (hs : lookup s v.config = some (Any.map kvs))
    (hd : ∀ m, lookup s v.defaults ≠ some (Any.map m)) :
    v.find w [s, k] = nonNil (lookup k kvs) := by
  have hdef : searchMap v.defaults [s, k] = none := by
    cases hl : lookup s v.defaults with
    | none => simp [searchMap, hl]
    | some x =>
      cases x with
      | map m => exact absurd hl (hd m)
      | _ => simp [searchMap, hl]
  have hsh : shadowedIn v.config (properPrefixes [s, k]) = false := by
    simp [properPrefixes, List.range, List.range.loop, shadowedIn, searchMap, hs, nonNil]
  simp only [Viper.find, h, Bool.false_eq_true, false_and, if_false, hsh, hdef]
  have hj2 : lookup (s ++ "." ++ k) v.config = none := hj
  have hsearch : searchWithPrefixes 3 v.config [s, k] = nonNil (lookup k kvs) := by
    simp only [searchWithPrefixes, searchAux, List.take, List.drop, List.length_cons,
      List.length_nil, joinKey, hj2, hs]
    cases hl : lookup k kvs with
    | none => simp [nonNil]
    | some x => cases x <;> simp [nonNil]
  simp only [List.length_cons, List.length_nil] at hsearch ⊢
  rw [hsearch]
  cases nonNil (lookup k kvs) <;> rfl

theorem hasKey_of_lookup (k : String) (m : List (String × Any)) (x : Any)
    (h : lookup k m = some x) : hasKey k m = true := by
  induction m with
  | nil => simp [lookup] at h
  | cons e rest ih =>
    obtain ⟨k2, v⟩ := e
    unfold lookup at h
    unfold hasKey
    split
    · rfl
    · next hk => simp only [hk, if_false] at h; exact ih h

theorem lookup_replaceKey_self (k : String) (v : Any) (m : List (String × Any))
    (h : hasKey k m = true) : lookup k (replaceKey k v m) = some v := by
  induction m with
  | nil => simp [hasKey] at h
  | cons e rest ih =>
    obtain ⟨k2, v2⟩ := e
    unfold hasKey at h
    unfold replaceKey
    by_cases hk : k2 = k
    · simp [hk, lookup]
    · simp only [hk, if_false] at h ⊢
      simp [lookup, hk, ih h]

theorem lookup_replaceKey_ne (k k2 : String) (v : Any) (m : List (String × Any))
    (h : k2 ≠ k) : lookup k2 (replaceKey k v m) = lookup k2 m := by
  induction m with
  | nil => simp [replaceKey]
  | cons e rest ih =>
    obtain ⟨k3, v3⟩ := e
    unfold replaceKey
    by_cases hk : k3 = k
    · have : k ≠ k2 := fun e => h e.symm
      simp [hk, lookup, this]
    · simp only [hk, if_false]
      simp [lookup, ih]

theorem lookup_insertKey_self (k : String) (v : Any) (m : List (String × Any))
    (h : hasKey k m = false) : lookup k (insertKey k v m) = some v := by
  induction m with
  | nil => simp [insertKey, lookup]
  | cons e rest ih =>
    obtain ⟨k2, v2⟩ := e
    unfold hasKey at h
    unfold insertKey
    by_cases hk : k2 = k
    · simp [hk] at h
    · simp only [hk, if_false] at h
      split
      · simp [lookup]
      · simp [lookup, hk, ih h]

theorem lookup_insertKey_ne (k k2 : String) (v : Any) (m : List (String × Any))
    (h : k2 ≠ k) : lookup k2 (insertKey k v m) = lookup k2 m := by
  have hne : k ≠ k2 := fun e => h e.symm
  induction m with
  | nil => simp [insertKey, lookup, hne]
  | cons e rest ih =>
    obtain ⟨k3, v3⟩ := e
    unfold insertKey
    split
    · simp [lookup, hne]
    · simp [lookup, ih]

theorem lookup_upsert_self (k : String) (v : Any) (m : List (String × Any)) :
    lookup k (upsert k v m) = some v := by
  unfold upsert
  split
  · next h => exact lookup_replaceKey_self k v m h
  · next h => exact lookup_insertKey_self k v m (by simpa using h)

theorem lookup_upsert_ne (k k2 : String) (v : Any) (m : List (String × Any))
    (h : k2 ≠ k) : lookup k2 (upsert k v m) = lookup k2 m := by
  unfold upsert
  split
  · exact lookup_replaceKey_ne k k2 v m h
  · exact lookup_insertKey_ne k k2 v m h

theorem replaceKey_same (k : String) (v : Any) (m : List (String × Any))
    (h : lookup k m = some v) : replaceKey k v m = m := by
  induction m with
  | nil => rfl
  | cons e rest ih =>
    obtain ⟨k2, v2⟩ := e
    unfold lookup at h
    unfold replaceKey
    by_cases hk : k2 = k
    · simp only [hk, if_true, Option.some.injEq] at h
      simp [hk, h]
    · simp only [hk, if_false] at h
      simp [hk, ih h]

theorem upsert_same (k : String) (v : Any) (m : List (String × Any))
    (h : lookup k m = some v) : upsert k v m = m := by
  unfold upsert
  rw [hasKey_of_lookup k m v h]
  simp [replaceKey_same k v m h]

theorem lookup_deepInsert_ne (path : List String) (v : Any) (m : List (String × Any))
    (k : String) (h : path.head? ≠ some k) :
    lookup k (deepInsert path v m) = lookup k m := by
  match path with
  | [] => rfl
  | [a] =>
    simp only [deepInsert]
    exact lookup_upsert_ne a k _ m (fun e => h (by simp [e]))
  | a :: t :: rest =>
    simp only [deepInsert]
    exact lookup_upsert_ne a k _ m (fun e => h (by simp [e]))

theorem lookup_deepInsert_cons (k t : String) (rest : List String) (v : Any)
    (m : List (String × Any)) :
    lookup k (deepInsert (k :: t :: rest) v m)
      = some (Any.map (deepInsert (t :: rest) v (asMap (lookup k m)))) := by
  simp only [deepInsert]
  exact lookup_upsert_self k _ m

theorem lookup_seeded (d : Deps) (k : String) (m : List (String × Any)) :
    lookup k (seededDefaults d) ≠ some (Any.map m) := by
  simp only [seededDefaults, seed, Viper.SetDefault, Viper.SetEnvPrefix, Viper.New,
    List.filter, lookup]
  split_ifs <;> simp

theorem flatten_seeded (d : Deps) :
    flattenMap [] (seededDefaults d) = [["kvstore"], ["port"], ["shard"], ["options"]] := rfl

theorem mem_keys (w : World) (v : Viper) (hw : w.Fair) (p : List String) :
    p ∈ w.keyOrder v.allKeys ↔
      p ∈ flattenMap [] v.config ∨ p ∈ flattenMap [] v.defaults := by
  rw [(hw.1 v.allKeys).mem_iff]
  simp [Viper.allKeys]

/-! ## Auxiliary facts: the settings at a key -/

theorem nonNil_eq_some (o : Option Any) (x : Any) (h : nonNil o = some x) : o = some x := by
  cases o with
  | none => simp [nonNil] at h
  | some y => cases y <;> simp_all [nonNil]

theorem nonNil_some (x : Any) (h : x ≠ Any.nil) : nonNil (some x) = some x := by
  cases x <;> simp_all [nonNil]

theorem key_shape (d : Deps) (w : World) (v : Viper) (hw : w.Fair)
    (hd : v.defaults = seededDefaults d) (p : List String)
    (h : p ∈ w.keyOrder v.allKeys) :
    (∃ e ∈ v.config, p ∈ flattenVal (splitKey e.1) e.2) ∨
      p = ["kvstore"] ∨ p = ["port"] ∨ p = ["shard"] ∨ p = ["options"] := by
  rcases (mem_keys w v hw p).mp h with h | h
  · left
    simpa using (flattenMap_mem [] v.config p).mp h
  · right
    rw [hd, flatten_seeded] at h
    simpa using h

theorem settle_lookup_ne (w : World) (v : Viper) (m : List (String × Any))
    (p : List String) (key : String) (h : p.head? ≠ some key) :
    lookup key (v.settle w m p) = lookup key m := by
  unfold Viper.settle
  cases v.find w p with
  | none => rfl
  | some val => exact lookup_deepInsert_ne p val m key h

theorem settings_single (w : World) (v : Viper) (key : String) (val : Any)
    (hshape : ∀ p ∈ w.keyOrder v.allKeys, p = [key] ∨ p.head? ≠ some key)
    (hmem : [key] ∈ w.keyOrder v.allKeys)
    (hfind : v.find w [key] = some val) :
    lookup key (v.AllSettings w) = some val := by
  unfold Viper.AllSettings
  apply foldl_establish (v.settle w) (fun m => lookup key m = some val) _ [key] hmem
  · intro m
    simp only [Viper.settle, hfind, deepInsert]
    exact lookup_upsert_self key val m
  · intro m p hp hm
    rcases hshape p hp with h | h
    · subst h
      simp only [Viper.settle, hfind, deepInsert]
      exact lookup_upsert_self key val m
    · rw [settle_lookup_ne w v m p key h]; exact hm

theorem settings_absent (d : Deps) (w : World) (v : Viper) (key : String) (hw : w.Fair)
    (hd : v.defaults = seededDefaults d) (hno : NoKey v.config key)
    (h4 : key ≠ "kvstore" ∧ key ≠ "port" ∧ key ≠ "shard" ∧ key ≠ "options") :
    lookup key (v.AllSettings w) = none := by
  unfold Viper.AllSettings
  apply foldl_preserve (v.settle w) (fun m => lookup key m = none)
  · intro m p hp hm
    rw [settle_lookup_ne w v m p key]
    · exact hm
    · rcases key_shape d w v hw hd p hp with ⟨e, he, hpe⟩ | h | h | h | h
      · rw [head_of_heads e.1 p (flattenVal_heads _ _ _ hpe)]
        exact hno e he
      · subst h; simpa using h4.1.symm
      · subst h; simpa using h4.2.1.symm
      · subst h; simpa using h4.2.2.1.symm
      · subst h; simpa using h4.2.2.2.symm
  · rfl

theorem lookup_none_of_NoKey (doc : List (String × Any)) (key : String)
    (hk : splitKey key = [key]) (hno : NoKey doc key) : lookup key doc = none := by
  apply lookup_none_of_forall
  intro e he heq
  exact hno e he (by rw [heq, hk]; rfl)

theorem settings_default (d : Deps) (w : World) (v : Viper) (key : String) (dv : Any)
    (hw : w.Fair) (ha : v.automaticEnvApplied = false)
    (hd : v.defaults = seededDefaults d) (hk : splitKey key = [key])
    (hno : NoKey v.config key)
    (hkey : [key] ∈ flattenMap [] (seededDefaults d))
    (hdv : nonNil (lookup key (seededDefaults d)) = some dv) :
    lookup key (v.AllSettings w) = some dv := by
  apply settings_single w v key dv
  · intro p hp
    rcases key_shape d w v hw hd p hp with ⟨e, he, hpe⟩ | h
    · right
      rw [head_of_heads e.1 p (flattenVal_heads _ _ _ hpe)]
      exact hno e he
    · by_cases hpk : p = [key]
      · exact Or.inl hpk
      · right
        rcases h with h | h | h | h <;> subst h <;> intro hh <;>
          simp only [List.head?_cons, Option.some.injEq] at hh <;> simp [hh] at hpk
  · exact (mem_keys w v hw [key]).mpr (Or.inr (by rw [hd]; exact hkey))
  · rw [find_single w v key ha, lookup_none_of_NoKey v.config key hk hno, hd, hdv]
    rfl

theorem settings_leaf (d : Deps) (w : World) (v : Viper) (key : String) (val : Any)
    (hw : w.Fair) (ha : v.automaticEnvApplied = false)
    (hd : v.defaults = seededDefaults d) (hk : splitKey key = [key])
    (hsole : SoleKey v.config key val) (hnil : val ≠ Any.nil)
    (hmap : ∀ m, val ≠ Any.map m) :
    lookup key (v.AllSettings w) = some val := by
  have hleaf : flattenVal [key] val = [[key]] := flattenVal_leaf [key] val hmap
  apply settings_single w v key val
  · intro p hp
    rcases key_shape d w v hw hd p hp with ⟨e, he, hpe⟩ | h
    · by_cases hh : (splitKey e.1).head? = some key
      · left
        have := hsole.2 e he hh
        subst this
        simp only [hk, hleaf, List.mem_singleton] at hpe
        exact hpe
      · right
        rw [head_of_heads e.1 p (flattenVal_heads _ _ _ hpe)]
        exact hh
    · by_cases hpk : p = [key]
      · exact Or.inl hpk
      · right
        rcases h with h | h | h | h <;> subst h <;> intro hh <;>
          simp only [List.head?_cons, Option.some.injEq] at hh <;> simp [hh] at hpk
  · apply (mem_keys w v hw [key]).mpr
    left
    rw [flattenMap_mem]
    exact ⟨(key, val), hsole.1, by simp [hk, hleaf]⟩
  · rw [find_single w v key ha, lookup_of_sole v.config key val hsole hk, nonNil_some val hnil]

theorem sole_key_eq (doc : List (String × Any)) (key : String) (val : Any)
    (hsole : SoleKey doc key val) :
    ∀ e ∈ doc, (splitKey e.1).head? = some key → e.1 = key := by
  intro e he hh
  rw [hsole.2 e he hh]

theorem settings_map_default (d : Deps) (w : World) (v : Viper) (key : String)
    (kvs : List (String × Any))
    (hw : w.Fair) (ha : v.automaticEnvApplied = false)
    (hd : v.defaults = seededDefaults d) (hk : splitKey key = [key])
    (hsole : SoleKey v.config key (Any.map kvs)) (hplain : Plain kvs)
    (hkey : [key] ∈ flattenMap [] (seededDefaults d)) :
    lookup key (v.AllSettings w) = some (Any.map kvs) := by
  have hlook := lookup_of_sole v.config key _ hsole hk
  have hfind : v.find w [key] = some (Any.map kvs) := by
    rw [find_single w v key ha, hlook]; rfl
  have hshape : ∀ p ∈ w.keyOrder v.allKeys,
      p = [key] ∨ p.head? ≠ some key ∨ ∃ k, p = [key, k] := by
    intro p hp
    rcases key_shape d w v hw hd p hp with ⟨e, he, hpe⟩ | h
    · by_cases hh : (splitKey e.1).head? = some key
      · right; right
        have := hsole.2 e he hh
        subst this
        simp only [hk, flattenVal] at hpe
        obtain ⟨e2, he2, hp2⟩ := (flattenMap_mem [key] kvs p).mp hpe
        rw [(hplain e2 he2).1, flattenVal_leaf _ _ (hplain e2 he2).2] at hp2
        exact ⟨e2.1, by simpa using hp2⟩
      · right; left
        rw [head_of_heads e.1 p (flattenVal_heads _ _ _ hpe)]
        exact hh
    · by_cases hpk : p = [key]
      · exact Or.inl hpk
      · right; left
        rcases h with h | h | h | h <;> subst h <;> intro hh <;>
          simp only [List.head?_cons, Option.some.injEq] at hh <;> simp [hh] at hpk
  unfold Viper.AllSettings
  apply foldl_establish (v.settle w) (fun m => lookup key m = some (Any.map kvs)) _ [key]
    ((mem_keys w v hw [key]).mpr (Or.inr (by rw [hd]; exact hkey)))
  · intro m
    simp only [Viper.settle, hfind, deepInsert]
    exact lookup_upsert_self key _ m
  · intro m p hp hm
    rcases hshape p hp with h | h | ⟨k, h⟩
    · subst h
      simp only [Viper.settle, hfind, deepInsert]
      exact lookup_upsert_self key _ m
    · rw [settle_lookup_ne w v m p key h]; exact hm
    · subst h
      have hf : v.find w [key, k] = nonNil (lookup k kvs) :=
        find_pair w v key k kvs ha
          (lookup_joinKey_none v.config key k [] hk (sole_key_eq _ _ _ hsole)) hlook
          (by rw [hd]; exact lookup_seeded d key)
      simp only [Viper.settle, hf]
      cases hn : nonNil (lookup k kvs) with
      | none => exact hm
      | some val =>
        simp only
        rw [lookup_deepInsert_cons, hm]
        simp only [asMap, deepInsert]
        rw [upsert_same k val kvs (nonNil_eq_some _ _ hn)]

theorem settings_field (d : Deps) (w : World) (v : Viper) (key f : String)
    (kvs : List (String × Any)) (val : Any)
    (hw : w.Fair) (ha : v.automaticEnvApplied = false)
    (hd : v.defaults = seededDefaults d) (hk : splitKey key = [key])
    (hf : splitKey f = [f])
    (h4 : key ≠ "kvstore" ∧ key ≠ "port" ∧ key ≠ "shard" ∧ key ≠ "options")
    (hsole : SoleKey v.config key (Any.map kvs)) (hfield : SoleKey kvs f val)
    (hnil : val ≠ Any.nil) (hmap : ∀ m, val ≠ Any.map m) :
    ∃ kvs2, lookup key (v.AllSettings w) = some (Any.map kvs2) ∧
      lookup f kvs2 = some val := by
  have hlook := lookup_of_sole v.config key _ hsole hk
  have hfind : v.find w [key, f] = some val := by
    rw [find_pair w v key f kvs ha
      (lookup_joinKey_none v.config key f [] hk (sole_key_eq _ _ _ hsole)) hlook
      (by rw [hd]; exact lookup_seeded d key),
      lookup_of_sole kvs f val hfield hf, nonNil_some val hnil]
  have hshape : ∀ p ∈ w.keyOrder v.allKeys,
      p = [key, f] ∨ p.head? ≠ some key ∨
        ∃ t rest, p = key :: t :: rest ∧ t ≠ f := by
    intro p hp
    rcases key_shape d w v hw hd p hp with ⟨e, he, hpe⟩ | h
    · by_cases hh : (splitKey e.1).head? = some key
      · have := hsole.2 e he hh
        subst this
        simp only [hk, flattenVal] at hpe
        obtain ⟨e2, he2, hp2⟩ := (flattenMap_mem [key] kvs p).mp hpe
        by_cases hh2 : (splitKey e2.1).head? = some f
        · left
          have := hfield.2 e2 he2 hh2
          subst this
          simp only [hf, flattenVal_leaf _ _ hmap, List.mem_singleton] at hp2
          simpa using hp2
        · right; right
          obtain ⟨q, hq⟩ := flattenVal_heads _ _ _ hp2
          cases hs : splitKey e2.1 with
          | nil => exact absurd hs (splitAux_ne_nil _ _)
          | cons t rest =>
            rw [hs] at hq hh2
            refine ⟨t, rest ++ q, by simpa using hq.symm, ?_⟩
            intro ht
            exact hh2 (by simp [ht])
      · right; left
        rw [head_of_heads e.1 p (flattenVal_heads _ _ _ hpe)]
        exact hh
    · right; left
      rcases h with h | h | h | h <;> subst h <;> intro hh <;>
        simp only [List.head?_cons, Option.some.injEq] at hh
      · exact h4.1 hh.symm
      · exact h4.2.1 hh.symm
      · exact h4.2.2.1 hh.symm
      · exact h4.2.2.2 hh.symm
  have hkeymem : [key, f] ∈ w.keyOrder v.allKeys := by
    apply (mem_keys w v hw _).mpr
    left
    rw [flattenMap_mem]
    refine ⟨(key, Any.map kvs), hsole.1, ?_⟩
    simp only [hk, flattenVal, List.nil_append]
    rw [flattenMap_mem]
    exact ⟨(f, val), hfield.1, by simp [hf, flattenVal_leaf _ _ hmap]⟩
  unfold Viper.AllSettings
  apply foldl_establish (v.settle w)
    (fun m => ∃ kvs2, lookup key m = some (Any.map kvs2) ∧ lookup f kvs2 = some val) _
    [key, f] hkeymem
  · intro m
    simp only [Viper.settle, hfind]
    exact ⟨_, lookup_deepInsert_cons key f [] val m, by
      simp only [deepInsert]; exact lookup_upsert_self f val _⟩
  · intro m p hp hm
    rcases hshape p hp with h | h | ⟨t, rest, h, ht⟩
    · subst h
      simp only [Viper.settle, hfind]
      exact ⟨_, lookup_deepInsert_cons key f [] val m, by
        simp only [deepInsert]; exact lookup_upsert_self f val _⟩
    · rw [settle_lookup_ne w v m p key h]; exact hm
    · subst h
      obtain ⟨kvs2, h1, h2⟩ := hm
      unfold Viper.settle
      cases v.find w (key :: t :: rest) with
      | none => exact ⟨kvs2, h1, h2⟩
      | some val2 =>
        refine ⟨_, lookup_deepInsert_cons key t rest val2 m, ?_⟩
        rw [h1]
        simp only [asMap]
        rw [lookup_deepInsert_ne (t :: rest) val2 kvs2 f (by simpa using ht)]
        exact h2

/-! ## Auxiliary facts: integers -/

theorem shiftFor_small (a : Nat) (h : a < 2 ^ 53) : shiftFor a a 0 = 0 := by
  cases a with
  | zero => rfl
  | succ n =>
    unfold shiftFor
    rw [if_pos (by simpa using h)]

theorem roundNat_of_le (a : Nat) (h : a ≤ 2 ^ 53) : roundNat a = a := by
  rcases Nat.lt_or_eq_of_le h with h | h
  · simp [roundNat, shiftFor_small a h, Nat.mod_one]
  · subst h; decide

theorem round64_of_le (n : Int) (h1 : -(2 ^ 53) ≤ n) (h2 : n ≤ 2 ^ 53) : round64 n = n := by
  have ha : n.natAbs ≤ 2 ^ 53 := by omega
  unfold round64
  rw [roundNat_of_le _ ha]
  split <;> omega

theorem decodeInt_of_IsInt (d : Deps) (v : Any) (n : Int) (h : IsInt v n) :
    decodeInt d v = some n := by
  rcases h with ⟨rfl, h1, h2⟩ | ⟨rfl, h1, h2⟩
  · simp only [decodeInt, wrapInt64, Option.some.injEq]
    omega
  · have h3 : -(2 ^ 63) ≤ n ∧ n < 2 ^ 63 := by constructor <;> omega
    have ht : Int.tdiv n ((1 : Nat) : Int) = n := by simp
    simp only [jsonInt, decodeInt, floatToInt, round64_of_le n h1 h2,
      Nat.one_ne_zero, if_false, Option.some.injEq, ht]
    rw [if_pos h3]

theorem IsInt_leaf (v : Any) (n : Int) (h : IsInt v n) :
    v ≠ Any.nil ∧ ∀ m, v ≠ Any.map m := by
  rcases h with ⟨rfl, _⟩ | ⟨rfl, _⟩ <;> simp [jsonInt]

theorem sampleWorld_fair : sampleWorld.Fair :=
  ⟨fun keys => List.Perm.refl keys, fun kvs => List.Perm.refl kvs⟩

theorem emptyWorld_fair : emptyWorld.Fair :=
  ⟨fun keys => List.Perm.refl keys, fun kvs => List.Perm.refl kvs⟩

theorem reversedWorld_fair : reversedWorld.Fair :=
  ⟨fun keys => List.reverse_perm keys, fun kvs => List.Perm.refl kvs⟩

/-! ## Auxiliary facts: decoding -/

theorem decodePtr_some {α : Type} (dec : Any → Option α) (x : Any) (r : Option α)
    (hx : x ≠ Any.nil) (h : decodePtr dec (some x) = some r) :
    ∃ y, dec x = some y ∧ r = some y := by
  cases x <;> simp_all [decodePtr, decodeField] <;>
    (obtain ⟨y, hy, rfl⟩ := h; exact ⟨y, hy, rfl⟩)

theorem decodeElems_strings (d : Deps) (xs : List String) :
    decodeElems (decodeString d) "" (xs.map Any.str) = some xs := by
  induction xs with
  | nil => rfl
  | cons x rest ih => simp [decodeElems, decodeField, decodeString, ih]

theorem decodeField_some {α : Type} (dec : Any → Option α) (zero : α) (x : Any)
    (hx : x ≠ Any.nil) : decodeField dec zero (some x) = dec x := by
  cases x <;> simp_all [decodeField]

theorem lookupFold_sole (w : World) (hw : w.Fair) (name key : String) (val : Any)
    (kvs : List (String × Any)) (hn : lookup name kvs = none) (hmem : (key, val) ∈ kvs)
    (hkey : lower key = lower name)
    (hall : ∀ e ∈ kvs, lower e.1 = lower name → e = (key, val)) :
    lookupFold w name kvs = some val := by
  unfold lookupFold
  rw [hn]
  simp only
  cases hf : (w.foldOrder kvs).find? fun e => lower e.1 = lower name with
  | none =>
    have := List.find?_eq_none.mp hf (key, val) ((hw.2 kvs).mem_iff.mpr hmem)
    simp [hkey] at this
  | some e =>
    have h1 := List.find?_some hf
    have h2 := (hw.2 kvs).mem_iff.mp (List.mem_of_find?_eq_some hf)
    simp only [decide_eq_true_eq] at h1
    rw [hall e h2 h1]
    rfl

theorem decodeElems_sizes (d : Deps) (w : World) (hw : w.Fair) (vs : List Any)
    (xs : List AllowedSize) (h : IsSizes vs xs) :
    decodeElems (decodeAllowedSize d w) { Height := 0, Width := 0 } vs = some xs := by
  induction vs generalizing xs with
  | nil =>
    cases xs with
    | nil => rfl
    | cons a rest => simp [IsSizes] at h
  | cons v rest ih =>
    cases xs with
    | nil => simp [IsSizes] at h
    | cons a more =>
      obtain ⟨⟨hh, hwd, rfl, h1, h2⟩, hrest⟩ := h
      have e1 : lookupFold w "Height" [("height", hh), ("width", hwd)] = some hh := by
        apply lookupFold_sole w hw "Height" "height" hh [("height", hh), ("width", hwd)]
          rfl (by simp) rfl
        intro e he hl
        simp only [List.mem_cons, List.mem_singleton, List.not_mem_nil, or_false] at he
        rcases he with rfl | rfl
        · rfl
        · exact absurd (show lower "width" = lower "Height" from hl) (by decide)
      have e2 : lookupFold w "Width" [("height", hh), ("width", hwd)] = some hwd := by
        apply lookupFold_sole w hw "Width" "width" hwd [("height", hh), ("width", hwd)]
          rfl (by simp) rfl
        intro e he hl
        simp only [List.mem_cons, List.mem_singleton, List.not_mem_nil, or_false] at he
        rcases he with rfl | rfl
        · exact absurd (show lower "height" = lower "Width" from hl) (by decide)
        · rfl
      have g1 : decodeField (decodeInt d) 0 (some hh) = some a.Height := by
        rw [decodeField_some _ _ hh (IsInt_leaf hh _ h1).1, decodeInt_of_IsInt d hh _ h1]
      have g2 : decodeField (decodeInt d) 0 (some hwd) = some a.Width := by
        rw [decodeField_some _ _ hwd (IsInt_leaf hwd _ h2).1, decodeInt_of_IsInt d hwd _ h2]
      have g3 : decodeField (decodeAllowedSize d w) { Height := 0, Width := 0 }
          (some (Any.map [("height", hh), ("width", hwd)])) = some a := by
        rw [decodeField_some _ _ _ (by simp)]
        simp only [decodeAllowedSize, e1, e2, g1, g2, Option.some_bind]
      simp only [decodeElems, g3, ih more hrest, Option.some_bind]

theorem decodeOptions_map (d : Deps) (w : World) (kvs : List (String × Any)) (o : Options)
    (h : decodeOptions d w (Any.map kvs) = some o) :
    decodeField (decodeBool d) false (lookup "enable_upload" kvs) = some o.EnableUpload ∧
    decodeField (decodeBool d) false (lookup "enable_delete" kvs) = some o.EnableDelete ∧
    decodeField (decodeBool d) false (lookup "enable_stats" kvs) = some o.EnableStats ∧
    decodeField (decodeSlice d (decodeAllowedSize d w) { Height := 0, Width := 0 }) []
      (lookup "allowed_sizes" kvs) = some o.AllowedSizes ∧
    decodeField (decodeString d) "" (lookup "default_user_agent" kvs)
      = some o.DefaultUserAgent ∧
    decodeField (decodeString d) "" (lookup "mimetype_detector" kvs)
      = some o.MimetypeDetector := by
  simp only [decodeOptions, Option.bind_eq_some] at h
  obtain ⟨a1, h1, a2, h2, a3, h3, a4, h4, a5, h5, a6, h6, ho⟩ := h
  simp only [Option.some.injEq] at ho
  subst ho
  exact ⟨h1, h2, h3, h4, h5, h6⟩

theorem decodeShard_map (d : Deps) (kvs : List (String × Any)) (sh : Shard)
    (h : decodeShard d (Any.map kvs) = some sh) :
    decodeField (decodeInt d) 0 (lookup "depth" kvs) = some sh.Depth ∧
    decodeField (decodeInt d) 0 (lookup "width" kvs) = some sh.Width ∧
    decodeField (decodeBool d) false (lookup "restonly" kvs) = some sh.RestOnly := by
  simp only [decodeShard, Option.bind_eq_some] at h
  obtain ⟨a1, h1, a2, h2, a3, h3, ho⟩ := h
  simp only [Option.some.injEq] at ho
  subst ho
  exact ⟨h1, h2, h3⟩

theorem decodeSentry_map (d : Deps) (kvs : List (String × Any)) (st : Sentry)
    (h : decodeSentry d (Any.map kvs) = some st) :
    decodeField (decodeString d) "" (lookup "dsn" kvs) = some st.DSN ∧
    decodeField (decodeTags d) [] (lookup "tags" kvs) = some st.Tags := by
  simp only [decodeSentry, Option.bind_eq_some] at h
  obtain ⟨a1, h1, a2, h2, ho⟩ := h
  simp only [Option.some.injEq] at ho
  subst ho
  exact ⟨h1, h2⟩

/-! ## Auxiliary facts: dependence on the state -/

theorem AllSettings_congr (w : World) (a b : Viper) (h1 : a.config = b.config)
    (h2 : a.defaults = b.defaults) (h3 : a.automaticEnvApplied = b.automaticEnvApplied)
    (h4 : a.envPrefix = b.envPrefix) : a.AllSettings w = b.AllSettings w := by
  obtain ⟨af, at_, ap, aa, ac, ad⟩ := a
  obtain ⟨bf, bt, bp, ba, bc, bd⟩ := b
  simp only at h1 h2 h3 h4
  subst h1 h2 h3 h4
  rfl

theorem ReadInConfig_congr (d : Deps) (w : World) (a b : Viper)
    (h0 : a.configFile = b.configFile) (h1 : a.configType = b.configType)
    (h2 : a.defaults = b.defaults) (h3 : a.automaticEnvApplied = b.automaticEnvApplied)
    (h4 : a.envPrefix = b.envPrefix) :
    (a.ReadInConfig d w).1 = (b.ReadInConfig d w).1 ∧
    ((a.ReadInConfig d w).1 = none →
      (a.ReadInConfig d w).2.Unmarshal d w = (b.ReadInConfig d w).2.Unmarshal d w) := by
  have ht : a.getConfigType = b.getConfigType := by simp [Viper.getConfigType, h0, h1]
  unfold Viper.ReadInConfig
  rw [← h0, ← ht]
  split_ifs
  · simp
  · simp
  · cases w.readFile a.configFile with
    | none => simp
    | some bytes =>
      simp only
      cases w.unmarshalReader a.getConfigType bytes with
      | none => simp
      | some tree =>
        refine ⟨rfl, fun _ => ?_⟩
        simp only [Viper.Unmarshal]
        exact congrArg (fun m => decodeConfig d w fun key => lookup key m)
          (AllSettings_congr w _ _ rfl h2 h3 h4)

theorem ReadConfig_congr (d : Deps) (w : World) (a b : Viper) (content : String)
    (h1 : a.configType = "json") (h1b : b.configType = "json")
    (h2 : a.defaults = b.defaults) (h3 : a.automaticEnvApplied = b.automaticEnvApplied)
    (h4 : a.envPrefix = b.envPrefix) :
    (a.ReadConfig w content).1 = (b.ReadConfig w content).1 ∧
    ((a.ReadConfig w content).1 = none →
      (a.ReadConfig w content).2.Unmarshal d w = (b.ReadConfig w content).2.Unmarshal d w) := by
  have ha : a.getConfigType = "json" := by simp [Viper.getConfigType, h1]
  have hb : b.getConfigType = "json" := by simp [Viper.getConfigType, h1b]
  unfold Viper.ReadConfig
  rw [ha, hb]
  cases w.unmarshalReader "json" content with
  | none => simp
  | some tree =>
    refine ⟨rfl, fun _ => ?_⟩
    simp only [Viper.Unmarshal]
    exact congrArg (fun m => decodeConfig d w fun key => lookup key m)
      (AllSettings_congr w _ _ rfl h2 h3 h4)

theorem load_congr (d : Deps) (w : World) (a b : Viper) (content : String) (isPath : Bool)
    (ha : Clean d a) (hb : Clean d b)
    (ht : isPath = true →
      a.configType = b.configType ∧ (content = "" → a.configFile = b.configFile)) :
    (load d w a content isPath).1 = (load d w b content isPath).1 := by
  have hda := seed_defaults d a ha
  have hdb := seed_defaults d b hb
  obtain ⟨a1, a2, a3, _, a5⟩ := seed_fields d a
  obtain ⟨b1, b2, b3, _, b5⟩ := seed_fields d b
  have hrs : (readSource d w (seed d a) content isPath).1
        = (readSource d w (seed d b) content isPath).1 ∧
      ((readSource d w (seed d a) content isPath).1 = none →
        (readSource d w (seed d a) content isPath).2.Unmarshal d w
          = (readSource d w (seed d b) content isPath).2.Unmarshal d w) := by
    cases isPath with
    | false =>
      simp only [readSource, Bool.false_eq_true, if_false]
      exact ReadConfig_congr d w _ _ content (by simp [Viper.SetConfigType])
        (by simp [Viper.SetConfigType]) (by simp [Viper.SetConfigType, hda, hdb])
        (by simp [Viper.SetConfigType, a1, b1, ha.1, hb.1])
        (by simp [Viper.SetConfigType, a5, b5])
    | true =>
      obtain ⟨p1, p2, p3, p4, _, p6⟩ := SetConfigFile_fields (seed d a) content
      obtain ⟨q1, q2, q3, q4, _, q6⟩ := SetConfigFile_fields (seed d b) content
      simp only [readSource, if_true]
      refine ReadInConfig_congr d w _ _ ?_ ?_ ?_ ?_ ?_
      · rw [p6, q6]
        by_cases hc : content = ""
        · simp [hc, a3, b3, (ht rfl).2 hc]
        · simp [hc]
      · rw [p4, q4, a2, b2]; exact (ht rfl).1
      · rw [p2, q2, hda, hdb]
      · rw [p1, q1, a1, b1, ha.1, hb.1]
      · rw [p3, q3, a5, b5]
  rw [load_result, load_result, ← hrs.1]
  cases h : (readSource d w (seed d a) content isPath).1 with
  | some e => rfl
  | none => simp only; rw [hrs.2 h]

theorem load_configType (d : Deps) (w : World) (v : Viper) (content : String)
    (isPath : Bool) :
    (load d w v content isPath).2.configType =
      if isPath = true then v.configType else "json" := by
  rw [load_state]
  cases isPath with
  | false =>
    have h := (ReadConfig_fields w ((seed d v).SetConfigType "json") content).2.2.2.1
    simpa [readSource, Viper.SetConfigType] using h
  | true =>
    have h := (ReadInConfig_fields d w ((seed d v).SetConfigFile content)).2.2.2.1
    have g := (SetConfigFile_fields (seed d v) content).2.2.2.1
    simp only [readSource, if_true]
    rw [h, g, (seed_fields d v).2.1]

theorem load_configFile (d : Deps) (w : World) (v : Viper) (path : String) (h : path = "") :
    (load d w v path true).2.configFile = v.configFile := by
  rw [load_state]
  have h1 := (ReadInConfig_fields d w ((seed d v).SetConfigFile path)).2.2.2.2
  have g := (SetConfigFile_fields (seed d v) path).2.2.2.2.2
  simp only [readSource, if_true]
  rw [h1, g, (seed_fields d v).2.2.1]
  simp [h]

theorem replay_configType (d : Deps) (history : List Call) :
    (replay d history).configType =
      if history.any (fun c => !c.isPath) = true then "json" else "" := by
  induction history with
  | nil => rfl
  | cons c earlier ih =>
    simp only [replay, load_configType, List.any_cons]
    rw [ih]
    by_cases hp : c.isPath = true <;> simp [hp]

/-! ## The claims -/

/-- C9: `DefaultConfig` takes no input and returns Engine non-nil with
DefaultFormat, DefaultQuality and empty Format; Options non-nil with the three
toggles false, no allowed size, the default mimetype detector and the user
agent `DefaultUserAgent ++ "/" ++ Version`; Port DefaultPort; KVStore non-nil
of type "dummy"; Shard non-nil with the three shard defaults; every other
field at its zero value. -/
theorem DefaultConfig_fields (d : Deps) :
    (DefaultConfig d).Engine = some
      { DefaultFormat := d.DefaultFormat, Quality := d.DefaultQuality, Format := "" } ∧
    (DefaultConfig d).Options = some
      { EnableUpload := false
        EnableDelete := false
        EnableStats := false
        AllowedSizes := []
        DefaultUserAgent := d.DefaultUserAgent ++ "/" ++ d.Version
        MimetypeDetector := d.DefaultMimetypeDetector } ∧
    (DefaultConfig d).Port = d.DefaultPort ∧
    (DefaultConfig d).KVStore = some { Type_ := "dummy" } ∧
    (DefaultConfig d).Shard = some
      { Width := d.DefaultShardWidth
        Depth := d.DefaultShardDepth
        RestOnly := d.DefaultShardRestOnly } ∧
    (DefaultConfig d).Debug = false ∧
    (DefaultConfig d).Sentry = none ∧
    (DefaultConfig d).SecretKey = "" ∧
    (DefaultConfig d).AllowedOrigins = [] ∧
    (DefaultConfig d).AllowedMethods = [] ∧
    (DefaultConfig d).AllowedHeaders = [] ∧
    (DefaultConfig d).Storage = none ∧
    (DefaultConfig d).Logger = { payload := [] } :=
  ⟨rfl, rfl, rfl, rfl, rfl, rfl, rfl, rfl, rfl, rfl, rfl, rfl, rfl⟩

/-- C2: for every input and every state of the merge instance, `load` returns
a nil Config exactly when it returns an error: the error of the read step
when that step fails, else the decode error when `Unmarshal` fails (no Config
in either case), and otherwise the decoded Config with no error. -/
theorem load_nil_iff_error (d : Deps) (w : World) (v : Viper) (content : String)
    (isPath : Bool) :
    ((load d w v content isPath).1.config = none ↔
      (load d w v content isPath).1.err ≠ none) ∧
    (load d w v content isPath).1.err =
      (match (readSource d w (seed d v) content isPath).1 with
       | some e => some e
       | none =>
         match (readSource d w (seed d v) content isPath).2.Unmarshal d w with
         | none => some LoadError.decodeError
         | some _ => none) ∧
    (load d w v content isPath).1.config =
      (match (readSource d w (seed d v) content isPath).1 with
       | some _ => none
       | none =>
         ((readSource d w (seed d v) content isPath).2.Unmarshal d w).map
           (withEngineDefault d)) := by
  rw [load_result]
  cases h1 : (readSource d w (seed d v) content isPath).1 with
  | some e => simp
  | none =>
    cases h2 : (readSource d w (seed d v) content isPath).2.Unmarshal d w <;> simp

/-- C3, evaluation at the failing input: with `PICFIT_PORT` set to 9999 in
the environment, loading the empty JSON document returns Port 3001, the
default port, not 9999. -/
theorem env_port_override_ignored :
    sampleWorld.getenv "PICFIT_PORT" = "9999" ∧
    (LoadFromContent sampleDeps sampleWorld Viper.New "\x7b\x7d").1.config
      = some sampleLoaded ∧
    sampleLoaded.Port = 3001 :=
  ⟨rfl, rfl, rfl⟩

/-- C4, evaluation at the failing input: for the inline document with `port`
9000 and `options.enable_upload` true, which sets neither
`default_user_agent` nor `mimetype_detector`, the returned DefaultUserAgent
and MimetypeDetector are empty, not the values of `DefaultConfig()`. -/
theorem options_defaults_not_kept :
    (LoadFromContent sampleDeps emptyWorld Viper.New
      "\x7b\"port\": 9000, \"options\": \x7b\"enable_upload\": true\x7d\x7d").1.config
      = some sampleLoadedUpload ∧
    sampleLoadedUpload.Options.map Options.DefaultUserAgent = some "" ∧
    (DefaultConfig sampleDeps).Options.map Options.DefaultUserAgent = some "picfit/0.5.0" ∧
    sampleLoadedUpload.Options.map Options.MimetypeDetector = some "" ∧
    (DefaultConfig sampleDeps).Options.map Options.MimetypeDetector = some "extension" ∧
    sampleLoadedUpload.Options.map Options.DefaultUserAgent
      ≠ (DefaultConfig sampleDeps).Options.map Options.DefaultUserAgent :=
  ⟨rfl, rfl, rfl, rfl, rfl, by decide⟩

/-- C1, counterexample: the inline document whose single key is
`engine.quality` has no `engine` key, yet the load returns an Engine decoded
from the document (quality 50), not `DefaultConfig().Engine`. -/
theorem engine_dotted_key_not_default :
    sampleReader "json" "\x7b\"engine.quality\": 50\x7d"
      = some [("engine.quality", jsonInt 50)] ∧
    (LoadFromContent sampleDeps emptyWorld Viper.New
      "\x7b\"engine.quality\": 50\x7d").1.config = some sampleLoadedQuality ∧
    sampleLoadedQuality.Engine.map EngineConfig.Quality = some 50 ∧
    (DefaultConfig sampleDeps).Engine.map EngineConfig.Quality = some 95 ∧
    sampleLoadedQuality.Engine.map EngineConfig.Quality
      ≠ (DefaultConfig sampleDeps).Engine.map EngineConfig.Quality :=
  ⟨rfl, rfl, rfl, rfl, by decide⟩

/-- C1 (amended): after any history of earlier loads and whatever the order
in which the key paths are enumerated, a successful `load` (path or inline
content) of a document that has no `engine` key and no key beginning with
`engine.` returns a Config whose Engine is non-nil and equal to
`DefaultConfig().Engine`, that is DefaultFormat, DefaultQuality and the empty
Format. -/
theorem engine_default_when_absent (d : Deps) (history : List Call) (w : World)
    (content : String) (isPath : Bool) (cfg : Config) (doc : Tree)
    (hw : w.Fair)
    (hok : (load d w (replay d history) content isPath).1.config = some cfg)
    (hdoc : documentOf w (replay d history) content isPath = some doc)
    (hno : NoKey doc "engine") :
    cfg.Engine = (DefaultConfig d).Engine ∧
    cfg.Engine = some
      { DefaultFormat := d.DefaultFormat, Quality := d.DefaultQuality, Format := "" } := by
  obtain ⟨v2, c, ha, hd, hcfg, hc, rfl⟩ :=
    load_some d w (replay d history) content isPath cfg doc (replay_clean d history) hok hdoc
  subst hcfg
  have h := (decodeConfig_some d w _ c hc).2.1
  rw [settings_absent d w v2 "engine" hw hd hno (by decide)] at h
  simp only [decodePtr, decodeField, Option.some.injEq] at h
  simp [withEngineDefault, ← h, DefaultConfig]

/-- Instance: the empty JSON document loaded inline after an earlier load of the
YAML file. -/
theorem engine_default_when_absent_witness :
    sampleWorld.Fair ∧
    (load sampleDeps sampleWorld (replay sampleDeps [⟨sampleWorld, "config.yaml", true⟩])
        "\x7b\x7d" false).1.config = some sampleLoaded ∧
    sampleLoaded.Engine = (DefaultConfig sampleDeps).Engine ∧
    sampleLoaded.Engine = some { DefaultFormat := "png", Quality := 95, Format := "" } :=
  ⟨sampleWorld_fair, rfl,
    engine_default_when_absent sampleDeps [⟨sampleWorld, "config.yaml", true⟩]
      sampleWorld "\x7b\x7d" false sampleLoaded [] sampleWorld_fair rfl rfl
      (fun _ he => absurd he (List.not_mem_nil _))⟩

/-- C5, counterexample: the inline document whose single key is `shard.depth`
has no `shard` key, yet when the key path `shard` is enumerated before the key
path `shard.depth` the load returns a Shard of depth 2 with RestOnly false,
not `DefaultConfig().Shard`. -/
theorem shard_dotted_key_not_default :
    sampleReader "json" "\x7b\"shard.depth\": 2\x7d" = some [("shard.depth", jsonInt 2)] ∧
    reversedWorld.Fair ∧
    (LoadFromContent sampleDeps reversedWorld Viper.New
      "\x7b\"shard.depth\": 2\x7d").1.config = some sampleLoadedDepth ∧
    sampleLoadedDepth.Shard.map Shard.Depth = some 2 ∧
    (DefaultConfig sampleDeps).Shard.map Shard.Depth = some 0 ∧
    sampleLoadedDepth.Shard.map Shard.Depth
      ≠ (DefaultConfig sampleDeps).Shard.map Shard.Depth :=
  ⟨rfl, reversedWorld_fair, rfl, rfl, rfl, by decide⟩

/-- C5 (amended): after any history of earlier loads, whatever the environment
and the order in which the key paths are enumerated, a successful `load` of a
document that has no `shard` key and no key beginning with `shard.` returns a
Config whose Shard is non-nil and equal to `DefaultConfig().Shard`, that is
DefaultShardWidth, DefaultShardDepth and DefaultShardRestOnly. -/
theorem shard_default_when_absent (d : Deps) (history : List Call) (w : World)
    (content : String) (isPath : Bool) (cfg : Config) (doc : Tree)
    (hw : w.Fair)
    (hok : (load d w (replay d history) content isPath).1.config = some cfg)
    (hdoc : documentOf w (replay d history) content isPath = some doc)
    (hno : NoKey doc "shard") :
    cfg.Shard = (DefaultConfig d).Shard ∧
    cfg.Shard = some
      { Width := d.DefaultShardWidth
        Depth := d.DefaultShardDepth
        RestOnly := d.DefaultShardRestOnly } := by
  obtain ⟨v2, c, ha, hd, hcfg, hc, rfl⟩ :=
    load_some d w (replay d history) content isPath cfg doc (replay_clean d history) hok hdoc
  subst hcfg
  have h := (decodeConfig_some d w _ c hc).2.2.2.2.1
  rw [settings_default d w v2 "shard" (Any.shardPtr (DefaultConfig d).Shard) hw ha hd rfl hno
    (by rw [flatten_seeded]; decide) rfl] at h
  simp only [decodePtr, decodeField, DefaultConfig, decodeShard, Option.map_some',
    Option.some.injEq] at h
  rw [(withEngineDefault_fields d c).2.2.2.1, ← h]
  exact ⟨rfl, rfl⟩

/-- Instance: the JSON file with the empty document, loaded by path in a fresh
process. -/
theorem shard_default_when_absent_witness :
    sampleWorld.Fair ∧
    (load sampleDeps sampleWorld Viper.New "config.json" true).1.config = some sampleLoaded ∧
    sampleLoaded.Shard = (DefaultConfig sampleDeps).Shard ∧
    sampleLoaded.Shard = some { Width := 0, Depth := 0, RestOnly := true } :=
  ⟨sampleWorld_fair, rfl,
    shard_default_when_absent sampleDeps [] sampleWorld "config.json" true sampleLoaded []
      sampleWorld_fair rfl rfl (fun _ he => absurd he (List.not_mem_nil _))⟩

/-- C6, counterexample: the inline document with `port` 9007199254740993
yields Port 9007199254740992: a JSON number reaches the decoder as the nearest
`float64`. -/
theorem port_beyond_float_precision :
    sampleReader "json" "\x7b\"port\": 9007199254740993\x7d"
      = some [("port", jsonInt 9007199254740993)] ∧
    (LoadFromContent sampleDeps emptyWorld Viper.New
      "\x7b\"port\": 9007199254740993\x7d").1.config = some sampleLoadedBigPort ∧
    sampleLoadedBigPort.Port = 9007199254740992 ∧
    sampleLoadedBigPort.Port ≠ 9007199254740993 :=
  ⟨rfl, rfl, rfl, by decide⟩

/-- C6 (amended): after any history of earlier loads, whatever the environment
and the order in which the key paths are enumerated, a successful `load`
returns as Port the integer of the document's `port` key when the document has
that key and no key beginning with `port.`, and the integer is one the decoder
converts exactly (a Go integer in the range of `int`, or a JSON number of
absolute value at most `2 ^ 53`); it returns DefaultPort (an `int`) when the
document has no `port` key and no key beginning with `port.`. -/
theorem port_document_over_default (d : Deps) (history : List Call) (w : World)
    (content : String) (isPath : Bool) (cfg : Config) (doc : Tree)
    (hw : w.Fair)
    (hport : -(2 ^ 63) ≤ d.DefaultPort ∧ d.DefaultPort < 2 ^ 63)
    (hok : (load d w (replay d history) content isPath).1.config = some cfg)
    (hdoc : documentOf w (replay d history) content isPath = some doc) :
    (∀ val n, SoleKey doc "port" val → IsInt val n → cfg.Port = n) ∧
    (NoKey doc "port" → cfg.Port = d.DefaultPort) := by
  obtain ⟨v2, c, ha, hd, hcfg, hc, rfl⟩ :=
    load_some d w (replay d history) content isPath cfg doc (replay_clean d history) hok hdoc
  subst hcfg
  have h := (decodeConfig_some d w _ c hc).2.2.2.2.2.1
  rw [(withEngineDefault_fields d c).2.2.2.2.1]
  constructor
  · intro val n hsole hint
    obtain ⟨hnil, hmap⟩ := IsInt_leaf val n hint
    rw [settings_leaf d w v2 "port" val hw ha hd rfl hsole hnil hmap] at h
    have hdec := decodeInt_of_IsInt d val n hint
    cases val <;> simp_all [decodeField]
  · intro hno
    rw [settings_default d w v2 "port" (Any.int d.DefaultPort) hw ha hd rfl hno
      (by rw [flatten_seeded]; decide) rfl] at h
    have hdec := decodeInt_of_IsInt d (Any.int d.DefaultPort) d.DefaultPort (Or.inl ⟨rfl, hport⟩)
    simp only [decodeField, hdec, Option.some.injEq] at h
    exact h.symm

/-- Instance: the YAML file with `port` 9000, loaded by path in a fresh
process. -/
theorem port_document_over_default_witness :
    sampleWorld.Fair ∧
    (load sampleDeps sampleWorld (replay sampleDeps []) "config.yaml" true).1.config
      = some sampleLoadedYaml ∧
    sampleLoadedYaml.Port = 9000 :=
  ⟨sampleWorld_fair, rfl,
    (port_document_over_default sampleDeps [] sampleWorld "config.yaml" true sampleLoadedYaml
      [("port", Any.int 9000)] sampleWorld_fair (by decide) rfl rfl).1 (Any.int 9000) 9000
      ⟨by simp, fun e he hh => by simpa using he⟩
      (Or.inl ⟨rfl, by decide, by decide⟩)⟩

/-- C7, counterexample: the inline document that sets `shard.rest_only` to
true yields a Shard whose RestOnly is false: the key `rest_only` matches no
field of `Shard`. -/
theorem rest_only_key_not_mapped :
    (LoadFromContent sampleDeps emptyWorld Viper.New
      "\x7b\"shard\": \x7b\"rest_only\": true\x7d\x7d").1.config
      = some sampleLoadedRestOnly ∧
    sampleLoadedRestOnly.Shard.map Shard.RestOnly = some false ∧
    sampleLoadedRestOnly.Shard.map Shard.RestOnly ≠ some true :=
  ⟨rfl, rfl, by decide⟩

/-- C7 (amended): the key-to-field mapping of the decode step is the schema
table with `restonly` in place of `rest_only`.  After any history of earlier
loads and whatever the order in which the key paths are enumerated, a
successful `load` of a document that sets a listed key (and no other key
beginning with that key and a dot) to a value of the listed type yields that
value in the field: `debug`, `secret_key`, `port` and the three `allowed_*`
lists at top level; `depth`, `width`, `restonly` under `shard` and the six
tagged keys under `options`, when these objects have keys without dot and
scalars or lists as values; `dsn` under `sentry`.  An integer is a value of
the listed type when the decoder converts it exactly. -/
theorem key_field_mapping (d : Deps) (history : List Call) (w : World)
    (content : String) (isPath : Bool) (cfg : Config) (doc : Tree)
    (hw : w.Fair)
    (hok : (load d w (replay d history) content isPath).1.config = some cfg)
    (hdoc : documentOf w (replay d history) content isPath = some doc) :
    (∀ b, SoleKey doc "debug" (Any.bool b) → cfg.Debug = b) ∧
    (∀ s, SoleKey doc "secret_key" (Any.str s) → cfg.SecretKey = s) ∧
    (∀ val n, SoleKey doc "port" val → IsInt val n → cfg.Port = n) ∧
    (∀ xs, SoleKey doc "allowed_origins" (ofStrings xs) → cfg.AllowedOrigins = xs) ∧
    (∀ xs, SoleKey doc "allowed_methods" (ofStrings xs) → cfg.AllowedMethods = xs) ∧
    (∀ xs, SoleKey doc "allowed_headers" (ofStrings xs) → cfg.AllowedHeaders = xs) ∧
    (∀ kvs, SoleKey doc "shard" (Any.map kvs) → Plain kvs →
      ∃ sh, cfg.Shard = some sh ∧
        (∀ val n, lookup "depth" kvs = some val → IsInt val n → sh.Depth = n) ∧
        (∀ val n, lookup "width" kvs = some val → IsInt val n → sh.Width = n) ∧
        (∀ b, lookup "restonly" kvs = some (Any.bool b) → sh.RestOnly = b)) ∧
    (∀ kvs, SoleKey doc "options" (Any.map kvs) → Plain kvs →
      ∃ o, cfg.Options = some o ∧
        (∀ b, lookup "enable_upload" kvs = some (Any.bool b) → o.EnableUpload = b) ∧
        (∀ b, lookup "enable_delete" kvs = some (Any.bool b) → o.EnableDelete = b) ∧
        (∀ b, lookup "enable_stats" kvs = some (Any.bool b) → o.EnableStats = b) ∧
        (∀ vs xs, lookup "allowed_sizes" kvs = some (Any.slice vs) → IsSizes vs xs →
          o.AllowedSizes = xs) ∧
        (∀ s, lookup "default_user_agent" kvs = some (Any.str s) →
          o.DefaultUserAgent = s) ∧
        (∀ s, lookup "mimetype_detector" kvs = some (Any.str s) →
          o.MimetypeDetector = s)) ∧
    (∀ kvs s, SoleKey doc "sentry" (Any.map kvs) → SoleKey kvs "dsn" (Any.str s) →
      ∃ st, cfg.Sentry = some st ∧ st.DSN = s) := by
  obtain ⟨v2, c, ha, hd, hcfg, hc, rfl⟩ :=
    load_some d w (replay d history) content isPath cfg doc (replay_clean d history) hok hdoc
  subst hcfg
  have hf := withEngineDefault_fields d c
  obtain ⟨g1, _, g3, g4, g5, g6, g7, g8, g9, g10, _, _, _⟩ := decodeConfig_some d w _ c hc
  rw [hf.1, hf.2.1, hf.2.2.1, hf.2.2.2.1, hf.2.2.2.2.1, hf.2.2.2.2.2.1, hf.2.2.2.2.2.2.1,
    hf.2.2.2.2.2.2.2.1, hf.2.2.2.2.2.2.2.2.1]
  refine ⟨?_, ?_, ?_, ?_, ?_, ?_, ?_, ?_, ?_⟩
  · intro b hb
    rw [settings_leaf d w v2 "debug" _ hw ha hd rfl hb (by simp) (by simp)] at g1
    simpa [decodeField, decodeBool] using g1.symm
  · intro x hx
    rw [settings_leaf d w v2 "secret_key" _ hw ha hd rfl hx (by simp) (by simp)] at g4
    simpa [decodeField, decodeString] using g4.symm
  · intro val n hsole hint
    obtain ⟨hnil, hmap⟩ := IsInt_leaf val n hint
    rw [settings_leaf d w v2 "port" val hw ha hd rfl hsole hnil hmap,
      decodeField_some _ _ val hnil, decodeInt_of_IsInt d val n hint] at g6
    simpa using g6.symm
  · intro xs hx
    rw [settings_leaf d w v2 "allowed_origins" _ hw ha hd rfl hx (by simp [ofStrings])
      (by simp [ofStrings])] at g8
    simpa [decodeField, decodeSlice, ofStrings, decodeElems_strings] using g8.symm
  · intro xs hx
    rw [settings_leaf d w v2 "allowed_methods" _ hw ha hd rfl hx (by simp [ofStrings])
      (by simp [ofStrings])] at g9
    simpa [decodeField, decodeSlice, ofStrings, decodeElems_strings] using g9.symm
  · intro xs hx
    rw [settings_leaf d w v2 "allowed_headers" _ hw ha hd rfl hx (by simp [ofStrings])
      (by simp [ofStrings])] at g10
    simpa [decodeField, decodeSlice, ofStrings, decodeElems_strings] using g10.symm
  · intro kvs hsole hplain
    rw [settings_map_default d w v2 "shard" kvs hw ha hd rfl hsole hplain
      (by rw [flatten_seeded]; decide)] at g5
    obtain ⟨sh, hs, hcs⟩ := decodePtr_some _ _ _ (by simp) g5
    obtain ⟨h1, h2, h3⟩ := decodeShard_map d kvs sh hs
    refine ⟨sh, hcs, ?_, ?_, ?_⟩
    · intro val n hn hint
      rw [hn, decodeField_some _ _ val (IsInt_leaf val n hint).1,
        decodeInt_of_IsInt d val n hint] at h1
      simpa using h1.symm
    · intro val n hn hint
      rw [hn, decodeField_some _ _ val (IsInt_leaf val n hint).1,
        decodeInt_of_IsInt d val n hint] at h2
      simpa using h2.symm
    · intro b hb; rw [hb] at h3; simpa [decodeField, decodeBool] using h3.symm
  · intro kvs hsole hplain
    rw [settings_map_default d w v2 "options" kvs hw ha hd rfl hsole hplain
      (by rw [flatten_seeded]; decide)] at g7
    obtain ⟨o, ho, hco⟩ := decodePtr_some _ _ _ (by simp) g7
    obtain ⟨h1, h2, h3, h4, h5, h6⟩ := decodeOptions_map d w kvs o ho
    refine ⟨o, hco, ?_, ?_, ?_, ?_, ?_, ?_⟩
    · intro b hb; rw [hb] at h1; simpa [decodeField, decodeBool] using h1.symm
    · intro b hb; rw [hb] at h2; simpa [decodeField, decodeBool] using h2.symm
    · intro b hb; rw [hb] at h3; simpa [decodeField, decodeBool] using h3.symm
    · intro vs xs hx hsz; rw [hx] at h4
      simpa [decodeField, decodeSlice, decodeElems_sizes d w hw vs xs hsz] using h4.symm
    · intro x hx; rw [hx] at h5; simpa [decodeField, decodeString] using h5.symm
    · intro x hx; rw [hx] at h6; simpa [decodeField, decodeString] using h6.symm
  · intro kvs s hsole hdsn
    obtain ⟨kvs2, hk2, hdsn2⟩ := settings_field d w v2 "sentry" "dsn" kvs (Any.str s) hw ha hd
      rfl rfl (by decide) hsole hdsn (by simp) (by simp)
    rw [hk2] at g3
    obtain ⟨st, hst, hcst⟩ := decodePtr_some _ _ _ (by simp) g3
    have h1 := (decodeSentry_map d _ st hst).1
    rw [hdsn2] at h1
    exact ⟨st, hcst, by simpa [decodeField, decodeString] using h1.symm⟩

/-- Instance: the inline document with `secret_key` "abc" and `shard.restonly`
true. -/
theorem key_field_mapping_witness :
    emptyWorld.Fair ∧
    (load sampleDeps emptyWorld (replay sampleDeps [])
      "\x7b\"secret_key\": \"abc\", \"shard\": \x7b\"restonly\": true\x7d\x7d" false).1.config
      = some sampleLoadedSecret ∧
    sampleLoadedSecret.SecretKey = "abc" ∧
    ∃ sh, sampleLoadedSecret.Shard = some sh ∧ sh.RestOnly = true := by
  have h := key_field_mapping sampleDeps [] emptyWorld
    "\x7b\"secret_key\": \"abc\", \"shard\": \x7b\"restonly\": true\x7d\x7d" false
    sampleLoadedSecret
    [("secret_key", Any.str "abc"), ("shard", Any.map [("restonly", Any.bool true)])]
    emptyWorld_fair rfl rfl
  have hs1 : SoleKey [("secret_key", Any.str "abc"),
      ("shard", Any.map [("restonly", Any.bool true)])] "secret_key" (Any.str "abc") := by
    refine ⟨by simp, ?_⟩
    intro e he hh
    simp only [List.mem_cons, List.mem_singleton, List.not_mem_nil, or_false] at he
    rcases he with rfl | rfl
    · rfl
    · exact absurd hh (by decide)
  have hs2 : SoleKey [("secret_key", Any.str "abc"),
      ("shard", Any.map [("restonly", Any.bool true)])] "shard"
      (Any.map [("restonly", Any.bool true)]) := by
    refine ⟨by simp, ?_⟩
    intro e he hh
    simp only [List.mem_cons, List.mem_singleton, List.not_mem_nil, or_false] at he
    rcases he with rfl | rfl
    · exact absurd hh (by decide)
    · rfl
  have hp : Plain [("restonly", Any.bool true)] := by
    intro e he
    simp only [List.mem_singleton] at he
    subst he
    exact ⟨by decide, by simp⟩
  obtain ⟨sh, h1, _, _, h4⟩ := h.2.2.2.2.2.2.1 [("restonly", Any.bool true)] hs2 hp
  exact ⟨emptyWorld_fair, rfl, h.2.1 "abc" hs1, sh, h1, h4 true rfl⟩

/-- C8, counterexample: the inline document whose single key is `shard.depth`
is loaded twice in succession, the files, the environment and the reader
unchanged; the first call enumerates the key path `shard.depth` before the key
path `shard` and returns the default Shard, the second enumerates them in the
opposite order and returns a Shard of depth 2. -/
theorem load_twice_differs :
    emptyWorld.readFile = reversedWorld.readFile ∧
    emptyWorld.getenv = reversedWorld.getenv ∧
    emptyWorld.unmarshalReader = reversedWorld.unmarshalReader ∧
    emptyWorld.Fair ∧ reversedWorld.Fair ∧
    (LoadFromContent sampleDeps emptyWorld Viper.New
      "\x7b\"shard.depth\": 2\x7d").1.config = some sampleLoaded ∧
    (LoadFromContent sampleDeps reversedWorld
      (LoadFromContent sampleDeps emptyWorld Viper.New "\x7b\"shard.depth\": 2\x7d").2
      "\x7b\"shard.depth\": 2\x7d").1.config = some sampleLoadedDepth ∧
    sampleLoaded.Shard.map Shard.Depth ≠ sampleLoadedDepth.Shard.map Shard.Depth :=
  ⟨rfl, rfl, rfl, emptyWorld_fair, reversedWorld_fair, rfl, rfl, by decide⟩

/-- C8 (amended): after any history of earlier loads, calling the same entry
point twice in succession with the same argument, the file system, the
environment and the reader unchanged and the key paths enumerated in the same
order in both calls, gives the same result pair: the same error twice or equal
Config values. -/
theorem load_twice_same (d : Deps) (history : List Call) (w : World) (content : String)
    (isPath : Bool) :
    (load d w (load d w (replay d history) content isPath).2 content isPath).1
      = (load d w (replay d history) content isPath).1 := by
  apply load_congr d w _ _ content isPath
    (load_clean d w _ content isPath (replay_clean d history)) (replay_clean d history)
  intro hp
  subst hp
  exact ⟨by simp [load_configType], fun hc => load_configFile d w _ content hc⟩

/-- C10, counterexample: `Load` on the YAML file succeeds in a fresh process,
but after an earlier `LoadFromContent` the same `Load` parses the file as JSON
and fails: the format is no longer inferred from the extension. -/
theorem load_after_content_ignores_extension :
    (Load sampleDeps sampleWorld Viper.New "config.yaml").1.config = some sampleLoadedYaml ∧
    (Load sampleDeps sampleWorld
      (LoadFromContent sampleDeps sampleWorld Viper.New "\x7b\x7d").2 "config.yaml").1.config
      = none ∧
    (Load sampleDeps sampleWorld
      (LoadFromContent sampleDeps sampleWorld Viper.New "\x7b\x7d").2 "config.yaml").1.err
      = some LoadError.parseError :=
  ⟨rfl, rfl, rfl⟩

/-- C10 (amended): with the same file system, environment, reader and order of
enumeration of the key paths, the result of `LoadFromContent(content)` is the
same after every history of earlier loads, and the result of `Load(path)` for
a non-empty path is the same after any two histories that both contain an
earlier `LoadFromContent` or both contain none (in particular, with none, it
is the result in a fresh process); keys read from an earlier document never
appear in a later result. -/
theorem load_history_independent (d : Deps) (h1 h2 : List Call) (w : World)
    (content : String) (isPath : Bool)
    (ht : isPath = true →
      content ≠ "" ∧ h1.any (fun c => !c.isPath) = h2.any (fun c => !c.isPath)) :
    (load d w (replay d h1) content isPath).1 = (load d w (replay d h2) content isPath).1 := by
  apply load_congr d w _ _ content isPath (replay_clean d h1) (replay_clean d h2)
  intro hp
  refine ⟨?_, fun hc => absurd hc (ht hp).1⟩
  rw [replay_configType, replay_configType, (ht hp).2]

/-- Instance: `Load` of the YAML file after two earlier `Load` calls and in a
fresh process. -/
theorem load_history_independent_witness :
    (load sampleDeps sampleWorld
        (replay sampleDeps [⟨sampleWorld, "config.yaml", true⟩, ⟨emptyWorld, "x.toml", true⟩])
        "config.yaml" true).1
      = (load sampleDeps sampleWorld (replay sampleDeps []) "config.yaml" true).1 ∧
    (load sampleDeps sampleWorld (replay sampleDeps []) "config.yaml" true).1.config
      = some sampleLoadedYaml :=
  ⟨load_history_independent sampleDeps
      [⟨sampleWorld, "config.yaml", true⟩, ⟨emptyWorld, "x.toml", true⟩] []
      sampleWorld "config.yaml" true (fun _ => ⟨by decide, rfl⟩), rfl⟩

end Picfit
